import Mathlib

/-!
Verification of the bytecode-compiler / virtual-machine core of the
`copperwall/go-interpreter` repository (a Monkey-language implementation).

The Go source is shallowly embedded: each Go package becomes a group of
Lean definitions translated from the source files.  Machine integers
(`int64`, `uint64`, `uint16`) become `Int`/`Nat` with explicit reductions
modulo the word size where Go overflows or truncates; Go functions that
can fail return `Except`; Go runtime panics are modelled as a distinct
`Fatal.goPanic` outcome, separate from an `error` value returned by a
function (`Fatal.goErr`).
-/

set_option maxHeartbeats 1000000
set_option maxRecDepth 4000

/-! ## Package `code` (src/unnamed/part_000) -/

/-- The opcodes, in declaration order (Go `iota`, so `OpConstant = 0`,
…, `OpIndex = 20`).  `opReturnValue`/`opCall` are referenced by the VM in
src/unnamed/part_001 but are absent from the opcode table in
src/unnamed/part_000; their byte values (21/22) are not observable in any
claim. -/
inductive Opcode where
  | opConstant | opPop | opAdd | opSub | opMul | opDiv
  | opTrue | opFalse | opEqual | opNotEqual | opGreaterThan
  | opMinus | opBang | opJumpNotTruthy | opJump
  | opNull | opGetGlobal | opSetGlobal
  | opArray | opHash | opIndex
  | opReturnValue | opCall
  deriving DecidableEq, Repr

/-- Numeric value of each opcode byte (Go `iota` numbering). -/
def Opcode.byteVal : Opcode → Nat
  | .opConstant => 0 | .opPop => 1 | .opAdd => 2 | .opSub => 3
  | .opMul => 4 | .opDiv => 5 | .opTrue => 6 | .opFalse => 7
  | .opEqual => 8 | .opNotEqual => 9 | .opGreaterThan => 10
  | .opMinus => 11 | .opBang => 12 | .opJumpNotTruthy => 13
  | .opJump => 14 | .opNull => 15 | .opGetGlobal => 16
  | .opSetGlobal => 17 | .opArray => 18 | .opHash => 19 | .opIndex => 20
  | .opReturnValue => 21 | .opCall => 22

/-- Inverse of `Opcode.byteVal` (the Go conversion `code.Opcode(b)` followed
by dispatch against the named opcode constants). -/
def byteToOp : Nat → Option Opcode
  | 0 => some .opConstant | 1 => some .opPop | 2 => some .opAdd
  | 3 => some .opSub | 4 => some .opMul | 5 => some .opDiv
  | 6 => some .opTrue | 7 => some .opFalse | 8 => some .opEqual
  | 9 => some .opNotEqual | 10 => some .opGreaterThan
  | 11 => some .opMinus | 12 => some .opBang | 13 => some .opJumpNotTruthy
  | 14 => some .opJump | 15 => some .opNull | 16 => some .opGetGlobal
  | 17 => some .opSetGlobal | 18 => some .opArray | 19 => some .opHash
  | 20 => some .opIndex | 21 => some .opReturnValue | 22 => some .opCall
  | _ => none

structure Definition where
  name : String
  operandWidths : List Nat
  deriving DecidableEq, Repr

/-- The `definitions` map of src/unnamed/part_000.  `OpReturnValue` and
`OpCall` have no entry there, hence `none`.  (The `OpMinus` entry is
spelled `"OpNot"` in the source; kept verbatim.) -/
def definitions : Opcode → Option Definition
  | .opConstant => some ⟨"OpConstant", [2]⟩
  | .opAdd => some ⟨"OpAdd", []⟩
  | .opPop => some ⟨"OpPop", []⟩
  | .opSub => some ⟨"OpSub", []⟩
  | .opMul => some ⟨"OpMul", []⟩
  | .opDiv => some ⟨"OpDiv", []⟩
  | .opTrue => some ⟨"OpTrue", []⟩
  | .opFalse => some ⟨"OpFalse", []⟩
  | .opEqual => some ⟨"OpEqual", []⟩
  | .opNotEqual => some ⟨"OpNotEqual", []⟩
  | .opGreaterThan => some ⟨"OpGreaterThan", []⟩
  | .opMinus => some ⟨"OpNot", []⟩
  | .opBang => some ⟨"OpBang", []⟩
  | .opJumpNotTruthy => some ⟨"OpJumpNotTruthy", [2]⟩
  | .opJump => some ⟨"OpJump", [2]⟩
  | .opNull => some ⟨"OpNull", []⟩
  | .opGetGlobal => some ⟨"OpGetGlobal", [2]⟩
  | .opSetGlobal => some ⟨"OpSetGlobal", [2]⟩
  | .opArray => some ⟨"OpArray", [2]⟩
  | .opHash => some ⟨"OpHash", [2]⟩
  | .opIndex => some ⟨"OpIndex", []⟩
  | .opReturnValue => none
  | .opCall => none

/-- `Lookup(op byte)`: find a definition for a raw opcode byte; error
`"opcode %d undefined"` when the byte has no entry. -/
def lookupDef (b : Nat) : Except String Definition :=
  match byteToOp b with
  | some op =>
    match definitions op with
    | some d => .ok d
    | none => .error ("opcode " ++ toString b ++ " undefined")
  | none => .error ("opcode " ++ toString b ++ " undefined")

/-- `binary.BigEndian.PutUint16` of `uint16(o)`: two big-endian bytes of
`o mod 2^16`. -/
def putUint16 (o : Nat) : List Nat :=
  [o % 65536 / 256, o % 256]

/-- `binary.BigEndian.Uint16`: big-endian read of two bytes.  Go panics
when fewer than two bytes remain; no caller in the claims reaches that
case, so the short read returns 0 here. -/
def readUint16 : List Nat → Nat
  | b0 :: b1 :: _ => b0 * 256 + b1
  | _ => 0

/-- Operand area of `Make`: Go zero-initialises the buffer and then writes
each given operand at its offset; a width other than 2 writes nothing
(the `switch width` has only `case 2`), and widths with no corresponding
operand keep their zero bytes.  (An operand list longer than the width
list would panic in Go; no defined opcode is used that way.) -/
def makeOperandBytes : List Nat → List Nat → List Nat
  | ws, [] => List.replicate ws.sum 0
  | [], _ :: _ => []
  | w :: ws, o :: os =>
    (if w = 2 then putUint16 o else List.replicate w 0) ++ makeOperandBytes ws os

/-- `Make(op, operands...)` (src/unnamed/part_000, lines 89–116): opcode
byte followed by the encoded operands; an opcode with no definition
yields the empty byte slice. -/
def make (op : Opcode) (operands : List Nat) : List Nat :=
  match definitions op with
  | none => []
  | some d => op.byteVal :: makeOperandBytes d.operandWidths operands

/-- `Make` applied to a raw byte, as done by the compiler's
`changeOperand` (`code.Opcode(c.instructions[opPos])`). -/
def makeByte (b : Nat) (operands : List Nat) : List Nat :=
  match byteToOp b with
  | some op => make op operands
  | none => []

/-- Recursion of `ReadOperands`: one operand per defined width, each read
at its running offset. -/
def readOperandsGo : List Nat → List Nat → Nat → List Nat × Nat
  | [], _, off => ([], off)
  | w :: ws, ins, off =>
    let v := if w = 2 then readUint16 (ins.drop off) else 0
    let rest := readOperandsGo ws ins (off + w)
    (v :: rest.1, rest.2)

/-- `ReadOperands(def, ins)` (src/unnamed/part_000, lines 140–154):
returns the operand values and the number of bytes consumed. -/
def readOperands (d : Definition) (ins : List Nat) : List Nat × Nat :=
  readOperandsGo d.operandWidths ins 0

/-! ## Package `object` (src/object/object.go) -/

/-- `HashKey` is the pair `(type tag, 64-bit digest)`. -/
structure HashKey where
  type : String
  value : Nat
  deriving DecidableEq, Repr

mutual
/-- A runtime value.  Go strings are byte sequences; the `string` payload
is the list of byte values (FNV-1a hashes bytes).  `goNil` stands for the
Go zero value of the `Object` interface, which populates the unwritten
slots of the VM's fixed-size stack and globals arrays. -/
inductive Object where
  | integer (value : Int)
  | boolean (value : Bool)
  | null
  | string (bytes : List Nat)
  | array (elements : List Object)
  | hash (pairs : List (HashKey × HashPair))
  | compiledFunction (instructions : List Nat)
  | goNil

/-- `HashPair` stores the original key next to the value. -/
inductive HashPair where
  | mk (key : Object) (value : Object)
end

def HashPair.key : HashPair → Object
  | .mk k _ => k

def HashPair.value : HashPair → Object
  | .mk _ v => v

def INTEGER_OBJ : String := "INTEGER"
def BOOLEAN_OBJ : String := "BOOLEAN"
def NULL_OBJ : String := "NULL"
def STRING_OBJ : String := "STRING"
def ARRAY_OBJ : String := "ARRAY"
def HASH_OBJ : String := "HASH"
def COMPILED_FUNCTION_OBJ : String := "COMPILED_FUNCTION_OBJ"

/-- `Type()` of each variant.  (`goNil` has no Go counterpart to call a
method on; a method call on it would be a nil-pointer panic, and no code
path in the claims reaches it.) -/
def Object.typeTag : Object → String
  | .integer _ => INTEGER_OBJ
  | .boolean _ => BOOLEAN_OBJ
  | .null => NULL_OBJ
  | .string _ => STRING_OBJ
  | .array _ => ARRAY_OBJ
  | .hash _ => HASH_OBJ
  | .compiledFunction _ => COMPILED_FUNCTION_OBJ
  | .goNil => ""

/-- 64-bit FNV-1a offset basis (`hash/fnv`). -/
def fnvOffset64 : Nat := 14695981039346656037

/-- 64-bit FNV prime (`hash/fnv`). -/
def fnvPrime64 : Nat := 1099511628211

/-- One step of FNV-1a: XOR the byte in, then multiply by the prime,
modulo 2^64 (Go `uint64` arithmetic wraps). -/
def fnvStep (h b : Nat) : Nat := ((h ^^^ b) * fnvPrime64) % (2 ^ 64)

/-- `fnv.New64a(); h.Write(bytes); h.Sum64()`. -/
def fnv64a (bytes : List Nat) : Nat := bytes.foldl fnvStep fnvOffset64

/-- `uint64(v)` for a Go `int64` value: two's-complement reinterpretation,
i.e. the value modulo 2^64. -/
def uint64OfInt (v : Int) : Nat := (v.emod (2 ^ 64)).toNat

/-- The `HashKey()` methods (src/object/object.go, lines 227–248),
defined on the three Hashable variants (`Integer`, `Boolean`, `String`);
`none` for every other variant. -/
def Object.hashKey : Object → Option HashKey
  | .integer v => some ⟨INTEGER_OBJ, uint64OfInt v⟩
  | .boolean b => some ⟨BOOLEAN_OBJ, if b then 1 else 0⟩
  | .string s => some ⟨STRING_OBJ, fnv64a s⟩
  | _ => none

/-- Render a byte sequence as text (ASCII view of the Go string). -/
def bytesToString (bs : List Nat) : String :=
  String.mk (bs.map (fun b => Char.ofNat b))

mutual
/-- `Inspect()`.  The hash rendering follows the pair-list order (Go map
iteration order is unspecified), and a `CompiledFunction` prints an
opaque placeholder instead of its pointer address; no claim depends on
either rendering. -/
def Object.inspect : Object → String
  | .integer v => toString v
  | .boolean b => if b then "true" else "false"
  | .null => "null"
  | .string s => bytesToString s
  | .array elems => "[" ++ String.intercalate "," (inspectList elems) ++ "]"
  | .hash prs => "\x7b" ++ String.intercalate ", " (inspectPairs prs) ++ "\x7d"
  | .compiledFunction _ => "CompiledFunction[<addr>]"
  | .goNil => ""

/-- Inspection form of each element of an array. -/
def inspectList : List Object → List String
  | [] => []
  | o :: os => o.inspect :: inspectList os

/-- `"key: value"` rendering of each stored pair of a hash. -/
def inspectPairs : List (HashKey × HashPair) → List String
  | [] => []
  | (_, .mk k v) :: ps => (k.inspect ++ ": " ++ v.inspect) :: inspectPairs ps
end

/-! ## Package `ast` (consumed by the compiler; node shapes as used in
src/compiler/compiler.go and the parser tests in src/unnamed/part_004) -/

mutual
/-- Tree nodes.  Payloads carry exactly what the compiler reads.
Integer literals hold the parsed `int64` value; string literals hold the
byte sequence.  Statement sequences (`Program`, `BlockStatement`) use the
isomorphic spine type `NodeList` so that the compiler's recursion over
them is structural. -/
inductive Node where
  | program (statements : NodeList)
  | expressionStatement (expression : Node)
  | infixExpression (operator : String) (left right : Node)
  | integerLiteral (value : Int)
  | prefixExpression (operator : String) (right : Node)
  | ifExpression (condition : Node) (consequence : Node) (alternative : Option Node)
  | blockStatement (statements : NodeList)
  | booleanNode (value : Bool)
  | letStatement (name : String) (value : Node)
  | identifier (name : String)
  | stringLiteral (bytes : List Nat)
  | arrayLiteral (elements : List Node)
  | hashLiteral (pairs : List (Node × Node))
  | indexExpression (left index : Node)
  | functionLiteral (parameters : List String) (body : Node)
  | callExpression (function : Node) (arguments : List Node)

/-- A sequence of statement nodes (the Go `[]ast.Statement`). -/
inductive NodeList where
  | nil
  | cons (head : Node) (tail : NodeList)
end

/-! ## Package `compiler` (src/compiler/compiler.go) -/

/-- `EmittedInstruction`: opcode and start position of an emitted
instruction.  The Go zero value has `Opcode = 0` (`OpConstant`). -/
structure EmittedInstruction where
  opcode : Opcode
  position : Nat
  deriving DecidableEq, Repr

/-- Compiler state: instruction buffer, constants pool and the two-slot
window of the last two emitted instructions. -/
structure Compiler where
  instructions : List Nat
  constants : List Object
  lastInstruction : EmittedInstruction
  previousInstruction : EmittedInstruction

/-- `New()`: empty buffers, zero-valued window. -/
def Compiler.new : Compiler :=
  { instructions := []
    constants := []
    lastInstruction := ⟨.opConstant, 0⟩
    previousInstruction := ⟨.opConstant, 0⟩ }

/-- `addConstant`: append and return the index of the appended constant. -/
def Compiler.addConstant (c : Compiler) (obj : Object) : Compiler × Nat :=
  ({ c with constants := c.constants ++ [obj] }, c.constants.length)

/-- `emit`: assemble with `Make`, append, remember the last two emitted
instructions; returns the new state and the position of the emitted
instruction. -/
def Compiler.emit (c : Compiler) (op : Opcode) (operands : List Nat) : Compiler × Nat :=
  let ins := make op operands
  let pos := c.instructions.length
  ({ c with instructions := c.instructions ++ ins
            previousInstruction := c.lastInstruction
            lastInstruction := ⟨op, pos⟩ }, pos)

/-- `lastInstructionIsPop`. -/
def Compiler.lastInstructionIsPop (c : Compiler) : Bool :=
  c.lastInstruction.opcode = .opPop

/-- `removeLastPop`: truncate the buffer to the last instruction's
position and promote the previous instruction. -/
def Compiler.removeLastPop (c : Compiler) : Compiler :=
  { c with instructions := c.instructions.take c.lastInstruction.position
           lastInstruction := c.previousInstruction }

/-- Overwrite `newIns.length` bytes starting at `pos`
(`replaceInstruction`).  `List.set` leaves the list unchanged out of
bounds, where Go would panic; every call site stays in bounds. -/
def writeAt : List Nat → Nat → List Nat → List Nat
  | l, _, [] => l
  | l, p, b :: bs => writeAt (l.set p b) (p + 1) bs

/-- `replaceInstruction(pos, newInstruction)`. -/
def Compiler.replaceInstruction (c : Compiler) (pos : Nat) (newIns : List Nat) : Compiler :=
  { c with instructions := writeAt c.instructions pos newIns }

/-- `changeOperand(opPos, operand)`: re-assemble the instruction whose
opcode byte sits at `opPos` with the new operand and write it in place. -/
def Compiler.changeOperand (c : Compiler) (opPos : Nat) (operand : Nat) : Compiler :=
  c.replaceInstruction opPos (makeByte (c.instructions.getD opPos 0) [operand])

mutual
/-- `Compile(node)` (src/compiler/compiler.go, lines 31–177).  The
`switch node := node.(type)` has cases for exactly eight node kinds; any
other node falls through the switch and the method returns `nil` with the
state untouched. -/
def compile : Node → Compiler → Except String Compiler
  | .program stmts, c => compileList stmts c
  | .expressionStatement e, c => do
    let c ← compile e c
    .ok (c.emit .opPop []).1
  | .infixExpression op l r, c =>
    if op = "<" then do
      let c ← compile r c
      let c ← compile l c
      .ok (c.emit .opGreaterThan []).1
    else do
      let c ← compile l c
      let c ← compile r c
      if op = "+" then .ok (c.emit .opAdd []).1
      else if op = "-" then .ok (c.emit .opSub []).1
      else if op = "*" then .ok (c.emit .opMul []).1
      else if op = "/" then .ok (c.emit .opDiv []).1
      else if op = "==" then .ok (c.emit .opEqual []).1
      else if op = "!=" then .ok (c.emit .opNotEqual []).1
      else if op = ">" then .ok (c.emit .opGreaterThan []).1
      else .error ("unknown operator " ++ op)
  | .integerLiteral v, c =>
    let p := c.addConstant (.integer v)
    .ok (p.1.emit .opConstant [p.2]).1
  | .prefixExpression op r, c => do
    let c ← compile r c
    if op = "!" then .ok (c.emit .opBang []).1
    else if op = "-" then .ok (c.emit .opMinus []).1
    else .error ("unknown operator: " ++ op)
  | .ifExpression cond cons alt, c => do
    let c ← compile cond c
    let jnt := c.emit .opJumpNotTruthy [9999]
    let c ← compile cons jnt.1
    let c := if c.lastInstructionIsPop then c.removeLastPop else c
    let jmp := c.emit .opJump [9999]
    let c := jmp.1
    let endOfConsequencePos := c.instructions.length
    let c := c.changeOperand jnt.2 endOfConsequencePos
    match alt with
    | none =>
      let c := (c.emit .opNull []).1
      let endOfAlternativePos := c.instructions.length
      .ok (c.changeOperand jmp.2 endOfAlternativePos)
    | some a => do
      let c ← compile a c
      let c := if c.lastInstructionIsPop then c.removeLastPop else c
      let endOfAlternativePos := c.instructions.length
      .ok (c.changeOperand jmp.2 endOfAlternativePos)
  | .blockStatement stmts, c => compileList stmts c
  | .booleanNode b, c =>
    if b then .ok (c.emit .opTrue []).1 else .ok (c.emit .opFalse []).1
  | .letStatement _ _, c => .ok c
  | .identifier _, c => .ok c
  | .stringLiteral _, c => .ok c
  | .arrayLiteral _, c => .ok c
  | .hashLiteral _, c => .ok c
  | .indexExpression _ _, c => .ok c
  | .functionLiteral _ _, c => .ok c
  | .callExpression _ _, c => .ok c

/-- Statement sequences of `Program` and `BlockStatement`: compile each
in order, stopping at the first error. -/
def compileList : NodeList → Compiler → Except String Compiler
  | .nil, c => .ok c
  | .cons s rest, c => do
    let c ← compile s c
    compileList rest c
end

/-- `Bytecode()` = the `(instructions, constants)` pair. -/
def Compiler.bytecode (c : Compiler) : List Nat × List Object :=
  (c.instructions, c.constants)

/-! ## Package `vm` (src/unnamed/part_001; the helpers shared with the
frameless earlier revision in src/vm/vm.go are identical there) -/

/-- Outcome of a failing Go computation: an `error` value returned to the
caller (`goErr`), or a runtime panic that crashes the process
(`goPanic`) — e.g. an out-of-range slice index or an integer division by
zero.  A panic is fatal but is *not* an error return. -/
inductive Fatal where
  | goErr (msg : String)
  | goPanic (msg : String)
  deriving Repr

abbrev Res (α : Type) := Except Fatal α

def StackSize : Nat := 2048
def GlobalsSize : Nat := 65536
def MaxFrames : Nat := 1024

/-- A call frame: the instructions of its `CompiledFunction` and an
instruction pointer starting at −1.  (The `Frame` type itself is not
under src/ — only its uses in src/unnamed/part_001 are.  Modelled from
the spec, §3.6: a frame owns a reference to a CompiledFunction and an
`ip` that is −1 before the first fetch.) -/
structure Frame where
  instructions : List Nat
  ip : Int

/-- `NewFrame`. -/
def Frame.new (ins : List Nat) : Frame := ⟨ins, -1⟩

/-- VM state (src/unnamed/part_001, lines 24–32).  `frames` is the Go
slice of 1024 `*Frame` pointers (`none` = nil); `framesIndex` counts the
occupied frames. -/
structure VM where
  constants : List Object
  stack : List Object
  sp : Nat
  globals : List Object
  frames : List (Option Frame)
  framesIndex : Nat

/-- `New(bytecode)`: the main frame wraps the top-level instructions;
stack and globals are zero-valued fixed-size slices. -/
def VM.new (instructions : List Nat) (constants : List Object) : VM :=
  { constants := constants
    stack := List.replicate StackSize .goNil
    sp := 0
    globals := List.replicate GlobalsSize .goNil
    frames := some (Frame.new instructions) :: List.replicate (MaxFrames - 1) none
    framesIndex := 1 }

/-- `currentFrame()` = `frames[framesIndex-1]`.  `framesIndex = 0` indexes
at −1 and an empty slot dereferences a nil pointer; both are panics. -/
def VM.currentFrame (vm : VM) : Res Frame :=
  match vm.framesIndex with
  | 0 => .error (.goPanic ("index out of range"))
  | n + 1 =>
    match vm.frames.getD n none with
    | some f => .ok f
    | none => .error (.goPanic ("nil frame"))

/-- Replace the current frame (the Go code mutates it through the
`*Frame` pointer). -/
def VM.setCurrentFrame (vm : VM) (f : Frame) : VM :=
  { vm with frames := vm.frames.set (vm.framesIndex - 1) (some f) }

/-- `pushFrame` (src/unnamed/part_001, lines 444–447): write the frame at
`framesIndex` and increment.  There is **no** capacity check: writing at
`framesIndex ≥ len(frames)` is an out-of-range panic. -/
def VM.pushFrame (vm : VM) (f : Frame) : Res VM :=
  if vm.framesIndex < vm.frames.length then
    .ok { vm with frames := vm.frames.set vm.framesIndex (some f)
                  framesIndex := vm.framesIndex + 1 }
  else
    .error (.goPanic ("index out of range"))

/-- `popFrame`: decrement and return the abandoned frame. -/
def VM.popFrame (vm : VM) : Res VM :=
  match vm.framesIndex with
  | 0 => .error (.goPanic ("index out of range"))
  | n + 1 => .ok { vm with framesIndex := n }

/-- `push(obj)` (src/vm/vm.go lines 310–319 and src/unnamed/part_001
lines 422–431): error when `sp ≥ StackSize`, else store at `sp` and
increment. -/
def VM.push (vm : VM) (obj : Object) : Res VM :=
  if vm.sp ≥ StackSize then
    .error (.goErr ("stack overflow, oh no"))
  else if vm.sp < vm.stack.length then
    .ok { vm with stack := vm.stack.set vm.sp obj, sp := vm.sp + 1 }
  else
    .error (.goPanic ("index out of range"))

/-- `pop()`: read `stack[sp-1]` and decrement — no check; `sp = 0` indexes
at −1, a panic.  The popped slot keeps its value (`LastPoppedStackElem`
relies on that). -/
def VM.pop (vm : VM) : Res (Object × VM) :=
  match vm.sp with
  | 0 => .error (.goPanic ("index out of range"))
  | n + 1 =>
    if h : n < vm.stack.length then
      .ok (vm.stack.get ⟨n, h⟩, { vm with sp := n })
    else
      .error (.goPanic ("index out of range"))

/-- `LastPoppedStackElem()` = `stack[sp]`. -/
def VM.lastPoppedStackElem (vm : VM) : Object :=
  vm.stack.getD vm.sp .goNil

/-- `nativeBoolToBooleanObject`: the singleton for a Go bool. -/
def nativeBoolToBooleanObject (b : Bool) : Object := .boolean b

/-- `isTruthy`: `Boolean v → v`, `Null → false`, default `true`. -/
def isTruthy : Object → Bool
  | .boolean v => v
  | .null => false
  | _ => true

/-- Go `==` on two `Object` interface values, for the non-integer
comparison path: reference identity.  `True`, `False` and `Null` are
process-wide singletons, so identity coincides with the variant for
them; any two distinct heap objects (arrays, hashes, strings, compiled
functions) compare unequal.  (Aliasing the *same* heap object on both
sides is not representable here; no claim depends on it.) -/
def identityEq : Object → Object → Bool
  | .boolean a, .boolean b => a = b
  | .null, .null => true
  | _, _ => false

/-- `int64` two's-complement wrap-around of an unbounded integer. -/
def wrap64 (x : Int) : Int := (x + 2 ^ 63).emod (2 ^ 64) - 2 ^ 63

/-- `executeBinaryIntegerOperation` (src/vm/vm.go lines 236–255,
src/unnamed/part_001 lines 348–367).  Go `int64` arithmetic wraps on
overflow; `/` truncates toward zero and panics on a zero divisor. -/
def executeBinaryIntegerOperation (vm : VM) (op : Opcode) (l r : Int) : Res VM :=
  match op with
  | .opAdd => vm.push (.integer (wrap64 (l + r)))
  | .opSub => vm.push (.integer (wrap64 (l - r)))
  | .opMul => vm.push (.integer (wrap64 (l * r)))
  | .opDiv =>
    if r = 0 then .error (.goPanic ("runtime error: integer divide by zero"))
    else vm.push (.integer (wrap64 (l.tdiv r)))
  | _ => .error (.goErr ("unknown integer operator: " ++ toString op.byteVal))

/-- `executeBinaryStringOperation`: only `Add` (concatenation). -/
def executeBinaryStringOperation (vm : VM) (op : Opcode) (l r : List Nat) : Res VM :=
  if op = .opAdd then vm.push (.string (l ++ r))
  else .error (.goErr ("unknown string operator: " ++ toString op.byteVal))

/-- `executeBinaryOperation`: pop right, pop left; Integer×Integer and
String×String are supported, anything else is an error. -/
def executeBinaryOperation (vm : VM) (op : Opcode) : Res VM := do
  let (right, vm) ← vm.pop
  let (left, vm) ← vm.pop
  match left, right with
  | .integer l, .integer r => executeBinaryIntegerOperation vm op l r
  | .string l, .string r => executeBinaryStringOperation vm op l r
  | _, _ =>
    .error (.goErr ("Unsupported types for binary operation: "
      ++ left.typeTag ++ " " ++ right.typeTag))

/-- `executeIntegerComparison`. -/
def executeIntegerComparison (vm : VM) (op : Opcode) (l r : Int) : Res VM :=
  match op with
  | .opEqual => vm.push (nativeBoolToBooleanObject (l = r))
  | .opNotEqual => vm.push (nativeBoolToBooleanObject (l ≠ r))
  | .opGreaterThan => vm.push (nativeBoolToBooleanObject (r < l))
  | _ => .error (.goErr ("Unknown operator: " ++ toString op.byteVal))

/-- `executeComparison`: pop right, pop left; value comparison for two
Integers, reference identity otherwise. -/
def executeComparison (vm : VM) (op : Opcode) : Res VM := do
  let (right, vm) ← vm.pop
  let (left, vm) ← vm.pop
  match left, right with
  | .integer l, .integer r => executeIntegerComparison vm op l r
  | _, _ =>
    match op with
    | .opEqual => vm.push (nativeBoolToBooleanObject (identityEq right left))
    | .opNotEqual => vm.push (nativeBoolToBooleanObject (!identityEq right left))
    | _ =>
      .error (.goErr ("Unsupported operator: " ++ toString op.byteVal
        ++ " (" ++ left.typeTag ++ " " ++ right.typeTag ++ ")"))

/-- `executeBangOperation` (src/vm/vm.go lines 216–223): pop; `right ==
False || right == Null` pushes `True`, anything else pushes `False`. -/
def executeBangOperation (vm : VM) : Res VM := do
  let (right, vm) ← vm.pop
  match right with
  | .boolean false => vm.push (.boolean true)
  | .null => vm.push (.boolean true)
  | _ => vm.push (.boolean false)

/-- `executeMinusOperation`: pop; Integer only; negate (Go `-v` wraps). -/
def executeMinusOperation (vm : VM) : Res VM := do
  let (right, vm) ← vm.pop
  match right with
  | .integer v => vm.push (.integer (wrap64 (-v)))
  | _ =>
    .error (.goErr ("Minus operator only works on integers, got " ++ right.typeTag))

/-- `executeArrayIndexOperation` (src/unnamed/part_001 lines 289–307):
negative or out-of-range index pushes `Null`, in-range pushes the
element. -/
def executeArrayIndexOperation (vm : VM) (array index : Object) : Res VM :=
  match array with
  | .array elems =>
    match index with
    | .integer i =>
      if i < 0 ∨ (elems.length : Int) ≤ i then vm.push .null
      else vm.push (elems.getD i.toNat .goNil)
    | _ => .error (.goErr ("Index is not number, " ++ index.inspect))
  | _ => .error (.goErr ("Value is not array, " ++ array.inspect))

/-- `executeHashIndexOperation` (src/unnamed/part_001 lines 267–287): the
index must be Hashable; a missing key pushes `Null`, a present key pushes
the stored value. -/
def executeHashIndexOperation (vm : VM) (hashObj index : Object) : Res VM :=
  match hashObj with
  | .hash pairs =>
    match index.hashKey with
    | some k =>
      match pairs.lookup k with
      | none => vm.push .null
      | some pair => vm.push pair.value
    | none => .error (.goErr ("Index is not hashable, " ++ index.inspect))
  | _ => .error (.goErr ("Value is not hash, " ++ hashObj.inspect))

/-- `executeIndexOperation` (src/unnamed/part_001 lines 252–265): pop the
index, pop the container; dispatch on `Array`+`Integer`, then on `Hash`;
any other combination is an error. -/
def executeIndexOperation (vm : VM) : Res VM := do
  let (index, vm) ← vm.pop
  let (container, vm) ← vm.pop
  if container.typeTag = ARRAY_OBJ ∧ index.typeTag = INTEGER_OBJ then
    executeArrayIndexOperation vm container index
  else if container.typeTag = HASH_OBJ then
    executeHashIndexOperation vm container index
  else
    .error (.goErr ("Unknown operands for index, \x22" ++ container.typeTag
      ++ "\x22 and \x22" ++ index.typeTag ++ "\x22"))

/-- Insert-or-replace into the pair list standing for the Go
`map[HashKey]HashPair`. -/
def hashInsert (ps : List (HashKey × HashPair)) (k : HashKey) (p : HashPair) :
    List (HashKey × HashPair) :=
  if ps.any (fun q => q.1 = k) then
    ps.map (fun q => if q.1 = k then (k, p) else q)
  else ps ++ [(k, p)]

/-- The `OpHash` loop (`for i := uint16(0); i < size; i += 2`): each
iteration pops a value, then its key; a non-Hashable key is an error. -/
def popHashPairs : Nat → VM → List (HashKey × HashPair) → Res (VM × List (HashKey × HashPair))
  | 0, vm, ps => .ok (vm, ps)
  | n + 1, vm, ps => do
    let (val, vm) ← vm.pop
    let (key, vm) ← vm.pop
    match key.hashKey with
    | none => .error (.goErr ("Value not hashable as key: " ++ key.typeTag))
    | some k => popHashPairs n vm (hashInsert ps k (.mk key val))

/-- The `OpArray` loop (`for i := size; i > 0; i--`): pop right-to-left so
the collected list restores source order. -/
def popN : Nat → VM → List Object → Res (VM × List Object)
  | 0, vm, acc => .ok (vm, acc)
  | n + 1, vm, acc => do
    let (o, vm) ← vm.pop
    popN n vm (o :: acc)

/-- Read the byte at (Go `int`) index `i`; out of range is a panic. -/
def byteAt (ins : List Nat) (i : Int) : Res Nat :=
  if h : 0 ≤ i ∧ i.toNat < ins.length then .ok (ins.get ⟨i.toNat, h.2⟩)
  else .error (.goPanic ("index out of range"))

/-- `code.ReadUint16(ins[i:])`; fewer than two bytes from `i` is a
panic. -/
def readU16At (ins : List Nat) (i : Int) : Res Nat :=
  if 0 ≤ i ∧ i.toNat + 2 ≤ ins.length then .ok (readUint16 (ins.drop i.toNat))
  else .error (.goPanic ("index out of range"))

/-- Add `k` to the current frame's ip (`vm.currentFrame().ip += k`). -/
def VM.advanceIp (vm : VM) (k : Int) : Res VM := do
  let cf ← vm.currentFrame
  .ok (vm.setCurrentFrame { cf with ip := cf.ip + k })

/-- Set the current frame's ip (`vm.currentFrame().ip = pos - 1`). -/
def VM.setIp (vm : VM) (i : Int) : Res VM := do
  let cf ← vm.currentFrame
  .ok (vm.setCurrentFrame { cf with ip := i })

/-- One iteration of the `Run()` loop body (src/unnamed/part_001, lines
79–245): pre-increment the ip, fetch the opcode byte, dispatch.  The
`switch` has no `default` case: a byte that matches no opcode constant
falls through and the loop continues. -/
def vmStep (vm : VM) : Res VM := do
  let cf0 ← vm.currentFrame
  let cf := { cf0 with ip := cf0.ip + 1 }
  let vm := vm.setCurrentFrame cf
  let ip := cf.ip
  let ins := cf.instructions
  let opb ← byteAt ins ip
  match byteToOp opb with
  | none => .ok vm
  | some op =>
    match op with
    | .opConstant => do
      let constIndex ← readU16At ins (ip + 1)
      let vm ← vm.advanceIp 2
      if h : constIndex < vm.constants.length then
        vm.push (vm.constants.get ⟨constIndex, h⟩)
      else .error (.goPanic ("index out of range"))
    | .opAdd => executeBinaryOperation vm op
    | .opSub => executeBinaryOperation vm op
    | .opMul => executeBinaryOperation vm op
    | .opDiv => executeBinaryOperation vm op
    | .opEqual => executeComparison vm op
    | .opNotEqual => executeComparison vm op
    | .opGreaterThan => executeComparison vm op
    | .opTrue => vm.push (.boolean true)
    | .opFalse => vm.push (.boolean false)
    | .opBang => executeBangOperation vm
    | .opMinus => executeMinusOperation vm
    | .opJump => do
      let pos ← readU16At ins (ip + 1)
      vm.setIp ((pos : Int) - 1)
    | .opJumpNotTruthy => do
      let pos ← readU16At ins (ip + 1)
      let vm ← vm.advanceIp 2
      let (condition, vm) ← vm.pop
      if isTruthy condition then .ok vm
      else vm.setIp ((pos : Int) - 1)
    | .opNull => vm.push .null
    | .opSetGlobal => do
      let index ← readU16At ins (ip + 1)
      let vm ← vm.advanceIp 2
      let (v, vm) ← vm.pop
      .ok { vm with globals := vm.globals.set index v }
    | .opGetGlobal => do
      let index ← readU16At ins (ip + 1)
      let vm ← vm.advanceIp 2
      vm.push (vm.globals.getD index .goNil)
    | .opArray => do
      let size ← readU16At ins (ip + 1)
      let vm ← vm.advanceIp 2
      let (vm, arr) ← popN size vm []
      vm.push (.array arr)
    | .opHash => do
      let size ← readU16At ins (ip + 1)
      let vm ← vm.advanceIp 2
      let (vm, pairs) ← popHashPairs ((size + 1) / 2) vm []
      vm.push (.hash pairs)
    | .opIndex => executeIndexOperation vm
    | .opReturnValue => do
      let (returnValue, vm) ← vm.pop
      let vm ← vm.popFrame
      let (_, vm) ← vm.pop
      vm.push returnValue
    | .opCall => do
      match vm.sp with
      | 0 => .error (.goPanic ("index out of range"))
      | n + 1 =>
        if h : n < vm.stack.length then
          match vm.stack.get ⟨n, h⟩ with
          | .compiledFunction fins => vm.pushFrame (Frame.new fins)
          | _ => .error (.goErr ("calling non-function"))
        else .error (.goPanic ("index out of range"))
    | .opPop => do
      let (_, vm) ← vm.pop
      .ok vm

/-- A complete `Run()`: `finished` is a normal (nil-error) return,
`failed` an error return, `crashed` a Go runtime panic; `fuelOut` only
marks exhaustion of the step budget. -/
inductive RunResult where
  | finished (vm : VM)
  | failed (msg : String)
  | crashed (msg : String)
  | fuelOut

/-- The `Run()` loop (src/unnamed/part_001, lines 67–250): while
`currentFrame().ip < len(currentFrame().Instructions()) - 1`, run one
step. -/
def vmRun : Nat → VM → RunResult
  | 0, _ => .fuelOut
  | fuel + 1, vm =>
    match vm.currentFrame with
    | .error (.goErr m) => .failed m
    | .error (.goPanic m) => .crashed m
    | .ok cf =>
      if cf.ip < (cf.instructions.length : Int) - 1 then
        match vmStep vm with
        | .ok vm' => vmRun fuel vm'
        | .error (.goErr m) => .failed m
        | .error (.goPanic m) => .crashed m
      else .finished vm

/-- Whether a run returned without error. -/
def RunResult.isFinished : RunResult → Bool
  | .finished _ => true
  | _ => false

/-! ## Symbol table and the globals-aware compiler

The repository's REPL (src/repl/repl_vm.go) calls
`compiler.NewSymbolTable()` and `compiler.NewWithState(symbolTable,
constants)`, and the VM implements `OpGetGlobal`/`OpSetGlobal`; but the
symbol table itself and the compiler revision containing the
`LetStatement`/`Identifier` cases are not under src/ — only their
callers are.  They are modelled here from the spec (§3.5, §4.2, §4.3). -/

/-- Modelled from the spec: a symbol — `(scope tag, slot index)`
(spec §3.5).  The current core defines a single global scope. -/
structure GlobalSymbol where
  scope : String
  index : Nat
  deriving DecidableEq, Repr

/-- Modelled from the spec: the symbol table (spec §4.2), missing from
src/.  It maps identifier → symbol; `numDefinitions` is the next free
slot (name→slot assignment is monotonic, in first-definition order). -/
structure SymbolTable where
  store : List (String × GlobalSymbol)
  numDefinitions : Nat

/-- Modelled from the spec: `NewSymbolTable()` (called by
src/repl/repl_vm.go). -/
def SymbolTable.new : SymbolTable := ⟨[], 0⟩

/-- Modelled from the spec: `define(name)` — assign the next
monotonically increasing index within the (global) scope (spec §4.2). -/
def SymbolTable.define (st : SymbolTable) (name : String) : SymbolTable × GlobalSymbol :=
  let sym : GlobalSymbol := ⟨"GLOBAL", st.numDefinitions⟩
  (⟨(name, sym) :: st.store, st.numDefinitions + 1⟩, sym)

/-- Modelled from the spec: `resolve(name)` — look the name up
(spec §4.2; there is no outer scope to recurse into). -/
def SymbolTable.resolve (st : SymbolTable) (name : String) : Option GlobalSymbol :=
  (st.store.find? (fun p => p.1 = name)).map (fun p => p.2)

/-- Compiler state of the globals-aware compiler revision: the state of
`Compiler` plus the symbol table (spec §4.3). -/
structure CompilerG where
  instructions : List Nat
  constants : List Object
  lastInstruction : EmittedInstruction
  previousInstruction : EmittedInstruction
  symbolTable : SymbolTable

/-- `NewWithState(symbolTable, constants)` as called by the REPL. -/
def CompilerG.newWithState (st : SymbolTable) (constants : List Object) : CompilerG :=
  { instructions := []
    constants := constants
    lastInstruction := ⟨.opConstant, 0⟩
    previousInstruction := ⟨.opConstant, 0⟩
    symbolTable := st }

def CompilerG.addConstant (c : CompilerG) (obj : Object) : CompilerG × Nat :=
  ({ c with constants := c.constants ++ [obj] }, c.constants.length)

def CompilerG.emit (c : CompilerG) (op : Opcode) (operands : List Nat) : CompilerG × Nat :=
  let ins := make op operands
  let pos := c.instructions.length
  ({ c with instructions := c.instructions ++ ins
            previousInstruction := c.lastInstruction
            lastInstruction := ⟨op, pos⟩ }, pos)

def CompilerG.lastInstructionIsPop (c : CompilerG) : Bool :=
  c.lastInstruction.opcode = .opPop

def CompilerG.removeLastPop (c : CompilerG) : CompilerG :=
  { c with instructions := c.instructions.take c.lastInstruction.position
           lastInstruction := c.previousInstruction }

def CompilerG.changeOperand (c : CompilerG) (opPos : Nat) (operand : Nat) : CompilerG :=
  { c with instructions :=
      writeAt c.instructions opPos (makeByte (c.instructions.getD opPos 0) [operand]) }

mutual
/-- Modelled from the spec: `Compile(node)` of the globals-aware compiler
revision.  All cases shared with src/compiler/compiler.go are translated
from that file; the `LetStatement` and `Identifier` cases follow the
spec's lowering rules (§4.3): *LetStatement*: compile the value
expression, then `define` the name and emit `SetGlobal slot`;
*Identifier*: `resolve`; if absent → error "undefined variable"; else
emit `GetGlobal slot`. -/
def compileG : Node → CompilerG → Except String CompilerG
  | .program stmts, c => compileListG stmts c
  | .expressionStatement e, c => do
    let c ← compileG e c
    .ok (c.emit .opPop []).1
  | .infixExpression op l r, c =>
    if op = "<" then do
      let c ← compileG r c
      let c ← compileG l c
      .ok (c.emit .opGreaterThan []).1
    else do
      let c ← compileG l c
      let c ← compileG r c
      if op = "+" then .ok (c.emit .opAdd []).1
      else if op = "-" then .ok (c.emit .opSub []).1
      else if op = "*" then .ok (c.emit .opMul []).1
      else if op = "/" then .ok (c.emit .opDiv []).1
      else if op = "==" then .ok (c.emit .opEqual []).1
      else if op = "!=" then .ok (c.emit .opNotEqual []).1
      else if op = ">" then .ok (c.emit .opGreaterThan []).1
      else .error ("unknown operator " ++ op)
  | .integerLiteral v, c =>
    let p := c.addConstant (.integer v)
    .ok (p.1.emit .opConstant [p.2]).1
  | .prefixExpression op r, c => do
    let c ← compileG r c
    if op = "!" then .ok (c.emit .opBang []).1
    else if op = "-" then .ok (c.emit .opMinus []).1
    else .error ("unknown operator: " ++ op)
  | .ifExpression cond cons alt, c => do
    let c ← compileG cond c
    let jnt := c.emit .opJumpNotTruthy [9999]
    let c ← compileG cons jnt.1
    let c := if c.lastInstructionIsPop then c.removeLastPop else c
    let jmp := c.emit .opJump [9999]
    let c := jmp.1
    let c := c.changeOperand jnt.2 c.instructions.length
    match alt with
    | none =>
      let c := (c.emit .opNull []).1
      .ok (c.changeOperand jmp.2 c.instructions.length)
    | some a => do
      let c ← compileG a c
      let c := if c.lastInstructionIsPop then c.removeLastPop else c
      .ok (c.changeOperand jmp.2 c.instructions.length)
  | .blockStatement stmts, c => compileListG stmts c
  | .booleanNode b, c =>
    if b then .ok (c.emit .opTrue []).1 else .ok (c.emit .opFalse []).1
  | .letStatement name value, c => do
    let c ← compileG value c
    let d := c.symbolTable.define name
    let c := { c with symbolTable := d.1 }
    .ok (c.emit .opSetGlobal [d.2.index]).1
  | .identifier name, c =>
    match c.symbolTable.resolve name with
    | none => .error ("undefined variable " ++ name)
    | some sym => .ok (c.emit .opGetGlobal [sym.index]).1
  | .stringLiteral _, c => .ok c
  | .arrayLiteral _, c => .ok c
  | .hashLiteral _, c => .ok c
  | .indexExpression _ _, c => .ok c
  | .functionLiteral _ _, c => .ok c
  | .callExpression _ _, c => .ok c

/-- Statement sequence compilation of the globals-aware compiler. -/
def compileListG : NodeList → CompilerG → Except String CompilerG
  | .nil, c => .ok c
  | .cons s rest, c => do
    let c ← compileG s c
    compileListG rest c
end

/-! ## Theorems -/

/-- Big-endian 16-bit encode/decode round-trip. -/
theorem readUint16_putUint16 (a : Nat) (h : a < 65536) :
    readUint16 (putUint16 a) = a := by
  simp only [readUint16, putUint16]
  omega

/-- C9: for every opcode `op` that has a definition and every operand
list `args` whose values fit the defined operand widths, `ReadOperands`
applied (with `op`'s definition) to the bytes following the opcode byte
of `Make(op, args)` returns exactly `args` and consumes exactly the sum
of the defined operand widths. -/
theorem make_readOperands_roundtrip (op : Opcode) (d : Definition) (args : List Nat)
    (hdef : definitions op = some d)
    (hfit : List.Forall₂ (fun a w => a < 256 ^ w) args d.operandWidths) :
    readOperands d ((make op args).drop 1) = (args, d.operandWidths.sum) := by
  cases op <;> simp only [definitions, Option.some.injEq] at hdef <;>
    first
    | exact Option.noConfusion hdef
    | (subst hdef
       first
       | (cases hfit
          simp [readOperands, readOperandsGo, make, makeOperandBytes, definitions]
          done)
       | (cases hfit with
          | cons h t =>
            cases t
            simp only [make, definitions, makeOperandBytes, List.drop_succ_cons,
              List.drop_zero, readOperands, readOperandsGo, readUint16, putUint16,
              List.cons_append, List.nil_append, List.sum_cons, List.sum_nil]
            norm_num at h ⊢
            omega))

/-- Witness for C9 at `Make(OpConstant, [65534])`. -/
theorem make_readOperands_roundtrip_witness :
    readOperands ⟨"OpConstant", [2]⟩ ((make .opConstant [65534]).drop 1) = ([65534], 2) :=
  make_readOperands_roundtrip .opConstant ⟨"OpConstant", [2]⟩ [65534] rfl
    (List.Forall₂.cons (by norm_num) List.Forall₂.nil)

/-- The FNV-1a fold stays below 2^64. -/
theorem fnvFold_lt (bs : List Nat) (h : Nat) (hh : h < 2 ^ 64) :
    bs.foldl fnvStep h < 2 ^ 64 := by
  induction bs generalizing h with
  | nil => exact hh
  | cons b bs ih => exact ih _ (Nat.mod_lt _ (by norm_num))

/-- The FNV-1a digest is below 2^64. -/
theorem fnv64a_lt (bs : List Nat) : fnv64a bs < 2 ^ 64 :=
  fnvFold_lt bs fnvOffset64 (by norm_num [fnvOffset64])

/-- C6 counterexample: the claimed equivalence `HashKey(v) = HashKey(w) ↔
v = w` over all Hashable values is false at a concrete pair of distinct
eight-byte Strings whose 64-bit FNV-1a digests coincide: the byte
sequences `[193,219,126,152,207,15,213,201]` and
`[40,123,128,192,234,240,73,104]` both hash to `9319005709851071831`. -/
theorem hashKey_not_injective :
    ¬ (∀ v w : Object, v.hashKey.isSome → w.hashKey.isSome →
        (v.hashKey = w.hashKey ↔ v = w)) := by
  intro hclaim
  have hdig : fnv64a [193, 219, 126, 152, 207, 15, 213, 201]
      = fnv64a [40, 123, 128, 192, 234, 240, 73, 104] := by decide
  have hkeq : (Object.string [193, 219, 126, 152, 207, 15, 213, 201]).hashKey
      = (Object.string [40, 123, 128, 192, 234, 240, 73, 104]).hashKey := by
    simp only [Object.hashKey, hdig]
  have hveq := (hclaim (.string [193, 219, 126, 152, 207, 15, 213, 201])
    (.string [40, 123, 128, 192, 234, 240, 73, 104]) rfl rfl).mp hkeq
  have hlists : ([193, 219, 126, 152, 207, 15, 213, 201] : List Nat)
      = [40, 123, 128, 192, 234, 240, 73, 104] := by
    injection hveq
  exact absurd hlists (by decide)

/-- C6 (amended): equal Hashable values always receive equal HashKeys,
and for every pair of Hashable values in the `int64` range that are not
both Strings, `HashKey(v) = HashKey(w)` iff `v = w` (two distinct Strings
may collide, since the FNV-1a digest is not injective). -/
theorem hashKey_eq_iff (v w : Object)
    (hv : v.hashKey.isSome) (hw : w.hashKey.isSome)
    (hvr : ∀ i, v = .integer i → -(2 ^ 63) ≤ i ∧ i < 2 ^ 63)
    (hwr : ∀ i, w = .integer i → -(2 ^ 63) ≤ i ∧ i < 2 ^ 63)
    (hns : ¬ (v.typeTag = STRING_OBJ ∧ w.typeTag = STRING_OBJ)) :
    (v = w → v.hashKey = w.hashKey) ∧ (v.hashKey = w.hashKey ↔ v = w) := by
  refine ⟨fun h => by rw [h], ?_⟩
  cases v with
  | integer i =>
    cases w with
    | integer j =>
      obtain ⟨hi1, hi2⟩ := hvr i rfl
      obtain ⟨hj1, hj2⟩ := hwr j rfl
      simp only [Object.hashKey, Option.some.injEq, HashKey.mk.injEq,
        Object.integer.injEq, eq_self_iff_true, true_and]
      constructor
      · intro h
        have e64 : (2 : Int) ^ 64 = 18446744073709551616 := by norm_num
        have e63 : (2 : Int) ^ 63 = 9223372036854775808 := by norm_num
        have h4 : (i % (2 ^ 64)).toNat = (j % (2 ^ 64)).toNat := h
        rw [e64] at h4
        rw [e63] at hi1 hi2 hj1 hj2
        omega
      · intro h; rw [h]
    | boolean b => simp [Object.hashKey, INTEGER_OBJ, BOOLEAN_OBJ]
    | string s => simp [Object.hashKey, INTEGER_OBJ, STRING_OBJ]
    | null => simp [Object.hashKey] at hw
    | array _ => simp [Object.hashKey] at hw
    | hash _ => simp [Object.hashKey] at hw
    | compiledFunction _ => simp [Object.hashKey] at hw
    | goNil => simp [Object.hashKey] at hw
  | boolean b =>
    cases w with
    | integer j => simp [Object.hashKey, INTEGER_OBJ, BOOLEAN_OBJ]
    | boolean c =>
      cases b <;> cases c <;> simp [Object.hashKey]
    | string s => simp [Object.hashKey, BOOLEAN_OBJ, STRING_OBJ]
    | null => simp [Object.hashKey] at hw
    | array _ => simp [Object.hashKey] at hw
    | hash _ => simp [Object.hashKey] at hw
    | compiledFunction _ => simp [Object.hashKey] at hw
    | goNil => simp [Object.hashKey] at hw
  | string s =>
    cases w with
    | integer j => simp [Object.hashKey, INTEGER_OBJ, STRING_OBJ]
    | boolean c => simp [Object.hashKey, BOOLEAN_OBJ, STRING_OBJ]
    | string t => exact absurd ⟨rfl, rfl⟩ hns
    | null => simp [Object.hashKey] at hw
    | array _ => simp [Object.hashKey] at hw
    | hash _ => simp [Object.hashKey] at hw
    | compiledFunction _ => simp [Object.hashKey] at hw
    | goNil => simp [Object.hashKey] at hw
  | null => simp [Object.hashKey] at hv
  | array _ => simp [Object.hashKey] at hv
  | hash _ => simp [Object.hashKey] at hv
  | compiledFunction _ => simp [Object.hashKey] at hv
  | goNil => simp [Object.hashKey] at hv

/-- Witness for the amended C6 at the Integers 2 and 3. -/
theorem hashKey_eq_iff_witness :
    ((Object.integer 2).hashKey = (Object.integer 3).hashKey ↔
      Object.integer 2 = Object.integer 3) :=
  (hashKey_eq_iff (.integer 2) (.integer 3) (by simp [Object.hashKey])
    (by simp [Object.hashKey])
    (fun i h => by injection h with h2; omega)
    (fun i h => by injection h with h2; omega)
    (by simp [Object.typeTag, INTEGER_OBJ, STRING_OBJ])).2

/-- Value at the top of the stack of a successful result. -/
def resTop (r : Res VM) : Option Object :=
  r.toOption.map (fun vm => vm.stack.getD (vm.sp - 1) .goNil)

/-- A VM about to execute `Bang` with `True` on top of the stack. -/
def vmBangTrue : VM :=
  { VM.new (make .opBang []) [] with
    stack := (List.replicate StackSize Object.goNil).set 0 (.boolean true)
    sp := 1 }

/-- C5 counterexample: the popped value `True` is mapped to `False`, not
to `True` as claimed — `executeBangOperation` pushes `True` exactly for
the popped singletons `False` and `Null`. -/
theorem executeBang_on_true_pushes_false :
    resTop (executeBangOperation vmBangTrue) = some (.boolean false)
    ∧ Object.boolean false ≠ Object.boolean true := by
  have hlen : ((List.replicate StackSize Object.goNil).set 0 (.boolean true)).length
      = StackSize := by
    rw [List.length_set, List.length_replicate]
  have h0 : (0 : Nat) < ((List.replicate StackSize Object.goNil).set 0 (.boolean true)).length := by
    rw [hlen]; norm_num [StackSize]
  have hpop : VM.pop vmBangTrue =
      .ok (.boolean true, { vmBangTrue with sp := 0 }) := by
    show VM.pop ⟨_, _, 1, _, _, _⟩ = _
    simp only [VM.pop, vmBangTrue]
    rw [dif_pos h0, List.get_set_eq]
  have hpush : VM.push { vmBangTrue with sp := 0 } (.boolean false) =
      .ok { vmBangTrue with
        stack := ((List.replicate StackSize Object.goNil).set 0 (.boolean true)).set 0
          (.boolean false)
        sp := 1 } := by
    simp only [VM.push, vmBangTrue]
    rw [if_neg (by norm_num [StackSize]), if_pos h0]
  constructor
  · have hres : executeBangOperation vmBangTrue =
        .ok { vmBangTrue with
          stack := ((List.replicate StackSize Object.goNil).set 0 (.boolean true)).set 0
            (.boolean false)
          sp := 1 } := by
      simp only [executeBangOperation, hpop, bind, Except.bind]
      exact hpush
    rw [resTop, hres]
    show some _ = _
    rw [Option.some.injEq]
    show ((((List.replicate StackSize Object.goNil).set 0 (.boolean true)).set 0
      (.boolean false)).getD 0 .goNil) = _
    rw [List.getD_eq_get?, List.get?_eq_get (by rw [List.length_set, hlen]; norm_num [StackSize]),
      List.get_set_eq]
    rfl
  · intro h
    injection h with h
    cases h

/-- C5 (amended): executing the Bang opcode pops one value and pushes the
result of logical not, where the popped values `False` and `Null` map to
`True` and every other popped value maps to `False`. -/
theorem executeBang_spec (cs gs : List Object) (fr : List (Option Frame)) (fi : Nat)
    (stack : List Object) (n : Nat) (top : Object)
    (hlen : stack.length = StackSize) (hn : n < StackSize)
    (htop : stack.get? n = some top) :
    ((top = .boolean false ∨ top = .null) →
      executeBangOperation ⟨cs, stack, n + 1, gs, fr, fi⟩ =
        .ok ⟨cs, stack.set n (.boolean true), n + 1, gs, fr, fi⟩)
    ∧ ((top ≠ .boolean false ∧ top ≠ .null) →
      executeBangOperation ⟨cs, stack, n + 1, gs, fr, fi⟩ =
        .ok ⟨cs, stack.set n (.boolean false), n + 1, gs, fr, fi⟩) := by
  have hn' : n < stack.length := by rw [hlen]; exact hn
  have hget : stack.get ⟨n, hn'⟩ = top := by
    have := List.get?_eq_get hn'
    rw [htop] at this
    exact (Option.some.injEq _ _).mp this.symm
  have hpop : VM.pop ⟨cs, stack, n + 1, gs, fr, fi⟩ =
      .ok (top, ⟨cs, stack, n, gs, fr, fi⟩) := by
    simp only [VM.pop, dif_pos hn', hget]
  have hpush : ∀ b : Bool, VM.push ⟨cs, stack, n, gs, fr, fi⟩ (.boolean b) =
      .ok ⟨cs, stack.set n (.boolean b), n + 1, gs, fr, fi⟩ := by
    intro b
    simp only [VM.push]
    rw [if_neg (by simp only [StackSize] at hn ⊢; omega), if_pos hn']
  constructor
  · rintro (h | h) <;>
      (subst h
       simp only [executeBangOperation, hpop]
       exact hpush true)
  · rintro ⟨h1, h2⟩
    simp only [executeBangOperation, hpop]
    cases top with
    | boolean b =>
      cases b with
      | false => exact absurd rfl h1
      | true => exact hpush false
    | null => exact absurd rfl h2
    | integer v => exact hpush false
    | string s => exact hpush false
    | array a => exact hpush false
    | hash h => exact hpush false
    | compiledFunction f => exact hpush false
    | goNil => exact hpush false

/-- Witness for the amended C5: `Bang` on a stack with `Null` on top
pushes `True`. -/
theorem executeBang_spec_witness :
    executeBangOperation ⟨[], (List.replicate StackSize Object.goNil).set 0 .null, 1,
        [], [], 0⟩ =
      .ok ⟨[], ((List.replicate StackSize Object.goNil).set 0 .null).set 0 (.boolean true), 1,
        [], [], 0⟩ :=
  (executeBang_spec [] [] [] 0 ((List.replicate StackSize Object.goNil).set 0 .null) 0 .null
    (by rw [List.length_set, List.length_replicate])
    (by norm_num [StackSize])
    (by
      rw [List.get?_set_eq]
      have h0 : 0 < (List.replicate StackSize Object.goNil).length := by
        rw [List.length_replicate]; norm_num [StackSize]
      rw [List.get?_eq_get h0]
      rfl)).1
    (Or.inr rfl)

/-- `get? 0` of a stack whose two bottom slots were written. -/
theorem stack2_get_zero (l : List Object) (a b : Object) (h : 1 < l.length) :
    ((l.set 0 a).set 1 b).get? 0 = some a := by
  rw [List.get?_set_ne _ _ (by norm_num)]
  rw [List.get?_set_eq, List.get?_eq_get (by omega)]
  rfl

/-- `get? 1` of a stack whose two bottom slots were written. -/
theorem stack2_get_one (l : List Object) (a b : Object) (h : 1 < l.length) :
    ((l.set 0 a).set 1 b).get? 1 = some b := by
  rw [List.get?_set_eq, List.get?_set_ne _ _ (by norm_num), List.get?_eq_get (by omega)]
  rfl

/-- The zero-filled stack. -/
def stack0 : List Object := List.replicate StackSize .goNil

theorem stack0_length : stack0.length = StackSize := by
  rw [stack0, List.length_replicate]

theorem stack0_one_lt : 1 < stack0.length := by
  rw [stack0_length]; norm_num [StackSize]

/-- The stack of a VM about to divide MinInt64 by −1. -/
def stackDE : List Object :=
  (stack0.set 0 (.integer (-(2 ^ 63)))).set 1 (.integer (-1))

/-- A VM about to divide MinInt64 by −1. -/
def vmDivEdge : VM :=
  ⟨[], stackDE, 2, List.replicate GlobalsSize .goNil,
    some (Frame.new (make .opDiv [])) :: List.replicate (MaxFrames - 1) none, 1⟩

/-- C7 counterexample: `OpDiv` on the Integers MinInt64 and −1 pushes
MinInt64 (Go two's-complement wrap-around), not the quotient truncated
toward zero, which is 2^63. -/
theorem executeDiv_minInt_counterexample :
    resTop (executeBinaryOperation vmDivEdge .opDiv) = some (.integer (-(2 ^ 63)))
    ∧ Int.tdiv (-(2 ^ 63)) (-1) = 2 ^ 63
    ∧ (-(2 ^ 63) : Int) ≠ 2 ^ 63 := by
  refine ⟨?_, by rw [Int.neg_tdiv_neg, Int.tdiv_one], by norm_num⟩
  have hlen : stackDE.length = StackSize := by
    rw [stackDE, List.length_set, List.length_set, stack0_length]
  have h1 : (1 : Nat) < stackDE.length := by rw [hlen]; norm_num [StackSize]
  have h0 : (0 : Nat) < stackDE.length := by omega
  have hq1 : stackDE.get? 1 = some (.integer (-1)) := stack2_get_one _ _ _ stack0_one_lt
  have hq0 : stackDE.get? 0 = some (.integer (-(2 ^ 63))) := stack2_get_zero _ _ _ stack0_one_lt
  have hget1 : stackDE.get ⟨1, h1⟩ = .integer (-1) := by
    have h := List.get?_eq_get h1
    rw [hq1] at h
    exact (Option.some.injEq _ _).mp h.symm
  have hget0 : stackDE.get ⟨0, h0⟩ = .integer (-(2 ^ 63)) := by
    have h := List.get?_eq_get h0
    rw [hq0] at h
    exact (Option.some.injEq _ _).mp h.symm
  have hpop1 : VM.pop vmDivEdge = .ok (.integer (-1),
      ⟨[], stackDE, 1, List.replicate GlobalsSize .goNil,
        some (Frame.new (make .opDiv [])) :: List.replicate (MaxFrames - 1) none, 1⟩) := by
    show VM.pop ⟨[], stackDE, 2, _, _, 1⟩ = _
    simp only [VM.pop, dif_pos h1, hget1]
  have hpop0 : VM.pop ⟨[], stackDE, 1, List.replicate GlobalsSize .goNil,
        some (Frame.new (make .opDiv [])) :: List.replicate (MaxFrames - 1) none, 1⟩ =
      .ok (.integer (-(2 ^ 63)),
      ⟨[], stackDE, 0, List.replicate GlobalsSize .goNil,
        some (Frame.new (make .opDiv [])) :: List.replicate (MaxFrames - 1) none, 1⟩) := by
    simp only [VM.pop, dif_pos h0, hget0]
  have hwrap : wrap64 (Int.tdiv (-(2 ^ 63)) (-1)) = -(2 ^ 63) := by
    rw [Int.neg_tdiv_neg, Int.tdiv_one]
    show ((2 : Int) ^ 63 + 2 ^ 63) % 2 ^ 64 - 2 ^ 63 = -(2 ^ 63)
    norm_num
  have hres : executeBinaryOperation vmDivEdge .opDiv =
      .ok ⟨[], stackDE.set 0 (.integer (wrap64 (Int.tdiv (-(2 ^ 63)) (-1)))), 1,
        List.replicate GlobalsSize .goNil,
        some (Frame.new (make .opDiv [])) :: List.replicate (MaxFrames - 1) none, 1⟩ := by
    simp only [executeBinaryOperation, hpop1, hpop0, bind, Except.bind,
      executeBinaryIntegerOperation]
    rw [if_neg (by norm_num)]
    simp only [VM.push]
    rw [if_neg (by norm_num [StackSize]), if_pos h0]
  rw [resTop, hres]
  show some _ = _
  rw [Option.some.injEq]
  show (stackDE.set 0 (.integer (wrap64 (Int.tdiv (-(2 ^ 63)) (-1))))).getD 0 .goNil = _
  rw [List.getD_eq_get?,
    List.get?_eq_get (by rw [List.length_set, hlen]; norm_num [StackSize]),
    List.get_set_eq, hwrap]
  rfl

/-- C7 (amended): executing `OpDiv` on two Integer operands pushes their
`int64` quotient — the quotient truncated toward zero, except that
MinInt64 divided by −1 wraps around to MinInt64 — and a popped right
operand equal to the Integer 0 is fatal: a Go runtime panic, so the VM
pushes nothing and does not continue (and does not return an `error`
value either). -/
theorem executeDiv_spec (cs gs : List Object) (fr : List (Option Frame)) (fi : Nat)
    (stack : List Object) (n : Nat) (l r : Int)
    (hlen : stack.length = StackSize) (hn : n + 1 < StackSize)
    (hl : stack.get? n = some (.integer l))
    (hr : stack.get? (n + 1) = some (.integer r)) :
    (r = 0 → executeBinaryOperation ⟨cs, stack, n + 2, gs, fr, fi⟩ .opDiv =
      .error (.goPanic ("runtime error: integer divide by zero")))
    ∧ (r ≠ 0 → executeBinaryOperation ⟨cs, stack, n + 2, gs, fr, fi⟩ .opDiv =
      .ok ⟨cs, stack.set n (.integer (wrap64 (l.tdiv r))), n + 1, gs, fr, fi⟩)
    ∧ (r ≠ 0 → -(2 ^ 63) ≤ l → l < 2 ^ 63 → -(2 ^ 63) ≤ r → r < 2 ^ 63 →
      ¬(l = -(2 ^ 63) ∧ r = -1) → wrap64 (l.tdiv r) = l.tdiv r) := by
  have hn1 : n + 1 < stack.length := by rw [hlen]; exact hn
  have hn0 : n < stack.length := by omega
  have hget1 : stack.get ⟨n + 1, hn1⟩ = .integer r := by
    have := List.get?_eq_get hn1
    rw [hr] at this
    exact (Option.some.injEq _ _).mp this.symm
  have hget0 : stack.get ⟨n, hn0⟩ = .integer l := by
    have := List.get?_eq_get hn0
    rw [hl] at this
    exact (Option.some.injEq _ _).mp this.symm
  have hpop1 : VM.pop ⟨cs, stack, n + 2, gs, fr, fi⟩ =
      .ok (.integer r, ⟨cs, stack, n + 1, gs, fr, fi⟩) := by
    simp only [VM.pop, dif_pos hn1, hget1]
  have hpop0 : VM.pop ⟨cs, stack, n + 1, gs, fr, fi⟩ =
      .ok (.integer l, ⟨cs, stack, n, gs, fr, fi⟩) := by
    simp only [VM.pop, dif_pos hn0, hget0]
  refine ⟨?_, ?_, ?_⟩
  · intro h0
    simp only [executeBinaryOperation, hpop1, hpop0, bind, Except.bind,
      executeBinaryIntegerOperation]
    rw [if_pos h0]
  · intro h0
    simp only [executeBinaryOperation, hpop1, hpop0, bind, Except.bind,
      executeBinaryIntegerOperation]
    rw [if_neg h0]
    simp only [VM.push]
    rw [if_neg (by simp only [StackSize] at hn ⊢; omega), if_pos hn0]
  · intro h0 hl1 hl2 hr1 hr2 hne
    have habs : (l.tdiv r).natAbs = l.natAbs / r.natAbs := Int.natAbs_tdiv l r
    have hdivle : l.natAbs / r.natAbs ≤ l.natAbs := Nat.div_le_self _ _
    have hla : l.natAbs ≤ 2 ^ 63 := by omega
    have hq : (l.tdiv r).natAbs ≤ 2 ^ 63 := by omega
    have hlt : l.tdiv r < 2 ^ 63 := by
      rcases Nat.lt_or_ge (l.tdiv r).natAbs (2 ^ 63) with h | h
      · omega
      · have heq : (l.tdiv r).natAbs = 2 ^ 63 := le_antisymm hq h
        rcases (by omega : l.tdiv r = 2 ^ 63 ∨ l.tdiv r = -(2 ^ 63)) with ht | ht
        · exfalso
          have hmul := Nat.div_mul_le_self l.natAbs r.natAbs
          have hrpos : 0 < r.natAbs := by omega
          have hr1' : r.natAbs = 1 := by
            by_contra hcon
            have h2 : 2 ≤ r.natAbs := by omega
            have hge2 : 2 ^ 63 * 2 ≤ l.natAbs := by
              calc 2 ^ 63 * 2 ≤ l.natAbs / r.natAbs * r.natAbs := by
                    rw [habs] at heq
                    rw [heq]
                    exact Nat.mul_le_mul_left _ h2
                _ ≤ l.natAbs := hmul
            omega
          have hlval : l = -(2 ^ 63) := by
            rw [habs, hr1', Nat.div_one] at heq
            omega
          rcases (by omega : r = 1 ∨ r = -1) with hrv | hrv
          · rw [hrv, Int.tdiv_one] at ht
            omega
          · exact hne ⟨hlval, hrv⟩
        · omega
    have hge : -(2 ^ 63) ≤ l.tdiv r := by omega
    show (l.tdiv r + 2 ^ 63) % 2 ^ 64 - 2 ^ 63 = l.tdiv r
    have e64 : (2 : Int) ^ 64 = 18446744073709551616 := by norm_num
    have e63 : (2 : Int) ^ 63 = 9223372036854775808 := by norm_num
    rw [e64, e63]
    rw [e63] at hlt hge
    omega

/-- Witness for the amended C7: dividing −7 by 2 pushes the quotient
truncated toward zero, with no wrap-around at that input. -/
theorem executeDiv_spec_witness :
    executeBinaryOperation ⟨[], (stack0.set 0 (.integer (-7))).set 1 (.integer 2), 2,
        [], [], 0⟩ .opDiv =
      .ok ⟨[], ((stack0.set 0 (.integer (-7))).set 1 (.integer 2)).set 0
        (.integer (wrap64 (Int.tdiv (-7) 2))), 1, [], [], 0⟩
    ∧ wrap64 (Int.tdiv (-7) 2) = Int.tdiv (-7) 2 := by
  have h := executeDiv_spec [] [] [] 0
    ((stack0.set 0 (.integer (-7))).set 1 (.integer 2)) 0 (-7) 2
    (by rw [List.length_set, List.length_set, stack0_length])
    (by norm_num [StackSize])
    (stack2_get_zero _ _ _ stack0_one_lt)
    (stack2_get_one _ _ _ stack0_one_lt)
  exact ⟨h.2.1 (by norm_num), h.2.2 (by norm_num) (by norm_num) (by norm_num)
    (by norm_num) (by norm_num) (by rintro ⟨h1, h2⟩; norm_num at h2)⟩

/-- C4: executing `OpIndex` pops the index then the container; an Array
container with an Integer index pushes `Null` when the index is negative
or ≥ the length and the element otherwise; a Hash container with a
Hashable key pushes `Null` on a missing key and the stored value
otherwise; a Hash container with a non-Hashable index fails with an
error, as does every combination that is neither Array+Integer nor
Hash. -/
theorem executeIndex_spec (cs gs : List Object) (fr : List (Option Frame)) (fi : Nat)
    (stack : List Object) (n : Nat) (container index : Object)
    (hlen : stack.length = StackSize) (hn : n + 1 < StackSize)
    (hc : stack.get? n = some container)
    (hi : stack.get? (n + 1) = some index) :
    (∀ elems i, container = .array elems → index = .integer i →
      executeIndexOperation ⟨cs, stack, n + 2, gs, fr, fi⟩ =
        .ok ⟨cs, stack.set n
          (if i < 0 ∨ (elems.length : Int) ≤ i then .null else elems.getD i.toNat .goNil),
          n + 1, gs, fr, fi⟩)
    ∧ (∀ prs k, container = .hash prs → index.hashKey = some k →
      executeIndexOperation ⟨cs, stack, n + 2, gs, fr, fi⟩ =
        .ok ⟨cs, stack.set n
          (match prs.lookup k with
           | some pair => pair.value
           | none => .null), n + 1, gs, fr, fi⟩)
    ∧ (∀ prs, container = .hash prs → index.hashKey = none →
      ∃ m, executeIndexOperation ⟨cs, stack, n + 2, gs, fr, fi⟩ = .error (.goErr m))
    ∧ (¬(container.typeTag = ARRAY_OBJ ∧ index.typeTag = INTEGER_OBJ) →
       container.typeTag ≠ HASH_OBJ →
      ∃ m, executeIndexOperation ⟨cs, stack, n + 2, gs, fr, fi⟩ = .error (.goErr m)) := by
  have hn1 : n + 1 < stack.length := by rw [hlen]; exact hn
  have hn0 : n < stack.length := by omega
  have hget1 : stack.get ⟨n + 1, hn1⟩ = index := by
    have := List.get?_eq_get hn1
    rw [hi] at this
    exact (Option.some.injEq _ _).mp this.symm
  have hget0 : stack.get ⟨n, hn0⟩ = container := by
    have := List.get?_eq_get hn0
    rw [hc] at this
    exact (Option.some.injEq _ _).mp this.symm
  have hpop1 : VM.pop ⟨cs, stack, n + 2, gs, fr, fi⟩ =
      .ok (index, ⟨cs, stack, n + 1, gs, fr, fi⟩) := by
    simp only [VM.pop, dif_pos hn1, hget1]
  have hpop0 : VM.pop ⟨cs, stack, n + 1, gs, fr, fi⟩ =
      .ok (container, ⟨cs, stack, n, gs, fr, fi⟩) := by
    simp only [VM.pop, dif_pos hn0, hget0]
  have hpush : ∀ v : Object, VM.push ⟨cs, stack, n, gs, fr, fi⟩ v =
      .ok ⟨cs, stack.set n v, n + 1, gs, fr, fi⟩ := by
    intro v
    simp only [VM.push]
    rw [if_neg (by simp only [StackSize] at hn ⊢; omega), if_pos hn0]
  refine ⟨?_, ?_, ?_, ?_⟩
  · rintro elems i rfl rfl
    simp only [executeIndexOperation, hpop1, hpop0, bind, Except.bind]
    rw [if_pos (by exact ⟨rfl, rfl⟩)]
    simp only [executeArrayIndexOperation]
    by_cases hb : i < 0 ∨ (elems.length : Int) ≤ i
    · rw [if_pos hb, if_pos hb]
      exact hpush .null
    · rw [if_neg hb, if_neg hb]
      exact hpush _
  · rintro prs k rfl hk
    simp only [executeIndexOperation, hpop1, hpop0, bind, Except.bind]
    rw [if_neg (by
      rintro ⟨h1, -⟩
      simp only [Object.typeTag, HASH_OBJ, ARRAY_OBJ] at h1
      exact absurd h1 (by decide))]
    rw [if_pos (show (Object.hash prs).typeTag = HASH_OBJ from rfl)]
    simp only [executeHashIndexOperation, hk]
    match hcase : prs.lookup k with
    | some pair => exact hpush pair.value
    | none => exact hpush .null
  · rintro prs rfl hk
    simp only [executeIndexOperation, hpop1, hpop0, bind, Except.bind]
    rw [if_neg (by
      rintro ⟨h1, -⟩
      simp only [Object.typeTag, HASH_OBJ, ARRAY_OBJ] at h1
      exact absurd h1 (by decide))]
    rw [if_pos (show (Object.hash prs).typeTag = HASH_OBJ from rfl)]
    simp only [executeHashIndexOperation, hk]
    exact ⟨_, rfl⟩
  · intro h1 h2
    simp only [executeIndexOperation, hpop1, hpop0, bind, Except.bind]
    rw [if_neg h1, if_neg h2]
    exact ⟨_, rfl⟩

/-- Witness for C4: indexing the array `[7]` with 0 pushes the element,
and indexing it with 5 pushes `Null`. -/
theorem executeIndex_spec_witness :
    executeIndexOperation ⟨[], (stack0.set 0 (.array [.integer 7])).set 1 (.integer 0), 2,
        [], [], 0⟩ =
      .ok ⟨[], ((stack0.set 0 (.array [.integer 7])).set 1 (.integer 0)).set 0
        (if (0 : Int) < 0 ∨ (([Object.integer 7].length : Int) ≤ 0) then .null
         else [Object.integer 7].getD (Int.toNat 0) .goNil), 1, [], [], 0⟩ := by
  have h := executeIndex_spec [] [] [] 0
    ((stack0.set 0 (.array [.integer 7])).set 1 (.integer 0)) 0 (.array [.integer 7])
    (.integer 0)
    (by rw [List.length_set, List.length_set, stack0_length])
    (by norm_num [StackSize])
    (stack2_get_zero _ _ _ stack0_one_lt)
    (stack2_get_one _ _ _ stack0_one_lt)
  exact h.1 [.integer 7] 0 rfl rfl

/-- C3 counterexample: the byte 255 has no opcode definition, yet `Run`
on the one-byte program `[255]` returns without error — the dispatch
switch has no default case, so an undefined opcode byte is silently
skipped. -/
theorem undefined_opcode_no_error :
    lookupDef 255 = .error ("opcode 255 undefined")
    ∧ (vmRun 10 (VM.new [255] [])).isFinished = true :=
  ⟨rfl, rfl⟩

/-- C3 (amended): a push with `sp ≥ 2048` returns the error
`"stack overflow, oh no"`, and `Run` propagates it (shown on a program
executing `OpTrue` with a full stack); pushing a frame with
`framesIndex` at the frame-array capacity is an out-of-range write — a
runtime panic, not an error return; and fetching an opcode byte with no
definition does not make `Run` return an error: the byte is skipped and
the run finishes normally. -/
theorem resource_bounds_spec :
    (∀ (vm : VM) (obj : Object), StackSize ≤ vm.sp →
      vm.push obj = .error (.goErr ("stack overflow, oh no")))
    ∧ (∀ (vm : VM) (f : Frame), vm.frames.length ≤ vm.framesIndex →
      vm.pushFrame f = .error (.goPanic ("index out of range")))
    ∧ vmRun 2 { VM.new (make .opTrue []) [] with sp := StackSize } =
      .failed ("stack overflow, oh no")
    ∧ (vmRun 10 (VM.new [255] [])).isFinished = true := by
  refine ⟨?_, ?_, rfl, rfl⟩
  · intro vm obj h
    simp only [VM.push]
    rw [if_pos h]
  · intro vm f h
    simp only [VM.pushFrame]
    rw [if_neg (by omega)]

/-- Witness for the amended C3 at a full stack and a full frame array. -/
theorem resource_bounds_spec_witness :
    VM.push { VM.new [] [] with sp := StackSize } .null =
      .error (.goErr ("stack overflow, oh no"))
    ∧ VM.pushFrame { VM.new [] [] with framesIndex := MaxFrames } (Frame.new []) =
      .error (.goPanic ("index out of range")) :=
  ⟨resource_bounds_spec.1 _ _ (le_refl _),
   resource_bounds_spec.2.1 _ _ (by
     show (some _ :: List.replicate (MaxFrames - 1) none).length ≤ MaxFrames
     rw [List.length_cons, List.length_replicate]
     norm_num [MaxFrames])⟩

/-- C10: the compiler's switch has no case for LetStatement, Identifier,
StringLiteral, ArrayLiteral, HashLiteral, IndexExpression,
FunctionLiteral or CallExpression: `Compile` falls through, returns no
error, and leaves the whole compiler state — in particular the
instruction buffer and the constants pool — unchanged. -/
theorem compile_ignores_unhandled (c : Compiler) :
    (∀ name value, compile (.letStatement name value) c = .ok c)
    ∧ (∀ name, compile (.identifier name) c = .ok c)
    ∧ (∀ s, compile (.stringLiteral s) c = .ok c)
    ∧ (∀ elems, compile (.arrayLiteral elems) c = .ok c)
    ∧ (∀ prs, compile (.hashLiteral prs) c = .ok c)
    ∧ (∀ l i, compile (.indexExpression l i) c = .ok c)
    ∧ (∀ ps b, compile (.functionLiteral ps b) c = .ok c)
    ∧ (∀ f args, compile (.callExpression f args) c = .ok c) :=
  ⟨fun _ _ => rfl, fun _ => rfl, fun _ => rfl, fun _ => rfl,
   fun _ => rfl, fun _ _ => rfl, fun _ _ => rfl, fun _ _ => rfl⟩

/-- C8: compiling `left < right` compiles the right operand first, then
the left operand, then emits a single `OpGreaterThan` (byte 10); and the
opcode table defines no less-than opcode. -/
theorem compile_lessThan_spec (l r : Node) (c0 c1 c2 : Compiler)
    (h1 : compile r c0 = .ok c1) (h2 : compile l c1 = .ok c2) :
    compile (.infixExpression "<" l r) c0 = .ok (c2.emit .opGreaterThan []).1
    ∧ (c2.emit .opGreaterThan []).1.instructions = c2.instructions ++ [10]
    ∧ make .opGreaterThan [] = [10]
    ∧ (∀ (op : Opcode) (d : Definition), definitions op = some d →
        d.name ≠ "OpLessThan") := by
  refine ⟨?_, rfl, rfl, ?_⟩
  · show (if ("<" : String) = "<" then _ else _) = _
    rw [if_pos rfl]
    simp only [h1, bind, Except.bind, h2]
  · intro op d hd hname
    cases op <;> simp only [definitions, Option.some.injEq] at hd <;>
      first
      | exact Option.noConfusion hd
      | (subst hd
         exact absurd hname (by decide))

/-- Witness for C8 at `true < false`. -/
theorem compile_lessThan_spec_witness :
    compile (.infixExpression "<" (.booleanNode true) (.booleanNode false)) Compiler.new =
      .ok ((((Compiler.new.emit .opFalse []).1.emit .opTrue []).1).emit .opGreaterThan []).1 :=
  (compile_lessThan_spec (.booleanNode true) (.booleanNode false) Compiler.new
    (Compiler.new.emit .opFalse []).1 (((Compiler.new.emit .opFalse []).1.emit .opTrue []).1)
    rfl rfl).1

/-- C1: in the globals-aware compiler (spec-modelled; see `compileG`),
compiling a LetStatement compiles its value expression, defines the name
(receiving the next slot) and emits `SetGlobal slot`; compiling an
Identifier that does not resolve returns the "undefined variable" error,
and one that resolves emits `GetGlobal slot`. -/
theorem compileG_globals_spec :
    (∀ (name : String) (value : Node) (c0 c1 : CompilerG),
      compileG value c0 = .ok c1 →
      compileG (.letStatement name value) c0 =
        .ok ({ c1 with symbolTable := (c1.symbolTable.define name).1 }.emit .opSetGlobal
          [(c1.symbolTable.define name).2.index]).1
      ∧ ({ c1 with symbolTable := (c1.symbolTable.define name).1 }.emit .opSetGlobal
          [(c1.symbolTable.define name).2.index]).1.instructions
        = c1.instructions ++ make .opSetGlobal [c1.symbolTable.numDefinitions]
      ∧ (c1.symbolTable.define name).2.index = c1.symbolTable.numDefinitions)
    ∧ (∀ (name : String) (c : CompilerG),
      c.symbolTable.resolve name = none →
      compileG (.identifier name) c = .error ("undefined variable " ++ name))
    ∧ (∀ (name : String) (c : CompilerG) (sym : GlobalSymbol),
      c.symbolTable.resolve name = some sym →
      compileG (.identifier name) c = .ok (c.emit .opGetGlobal [sym.index]).1
      ∧ (c.emit .opGetGlobal [sym.index]).1.instructions
        = c.instructions ++ make .opGetGlobal [sym.index]) := by
  refine ⟨?_, ?_, ?_⟩
  · intro name value c0 c1 h
    refine ⟨?_, rfl, rfl⟩
    show (do
      let c ← compileG value c0
      let d := c.symbolTable.define name
      let c := { c with symbolTable := d.1 }
      .ok (c.emit .opSetGlobal [d.2.index]).1) = _
    rw [h]
    rfl
  · intro name c h
    show (match c.symbolTable.resolve name with
      | none => (Except.error ("undefined variable " ++ name) : Except String CompilerG)
      | some sym => Except.ok (c.emit .opGetGlobal [sym.index]).1) = _
    rw [h]
  · intro name c sym h
    refine ⟨?_, rfl⟩
    show (match c.symbolTable.resolve name with
      | none => (Except.error ("undefined variable " ++ name) : Except String CompilerG)
      | some sym => Except.ok (c.emit .opGetGlobal [sym.index]).1) = _
    rw [h]

/-- Witness for C1: `let x = 1` from a fresh state emits
`Constant 0; SetGlobal 0`, and an undefined `y` is an error. -/
theorem compileG_globals_spec_witness :
    (∃ c2, compileG (.letStatement "x" (.integerLiteral 1))
        (CompilerG.newWithState SymbolTable.new []) = .ok c2
      ∧ c2.instructions = make .opConstant [0] ++ make .opSetGlobal [0])
    ∧ compileG (.identifier "y") (CompilerG.newWithState SymbolTable.new []) =
      .error ("undefined variable " ++ "y") :=
  ⟨⟨_, (compileG_globals_spec.1 "x" (.integerLiteral 1)
      (CompilerG.newWithState SymbolTable.new [])
      ((((CompilerG.newWithState SymbolTable.new []).addConstant (.integer 1)).1).emit
        .opConstant [((CompilerG.newWithState SymbolTable.new []).addConstant
          (.integer 1)).2]).1 rfl).1, rfl⟩,
   compileG_globals_spec.2.1 "y" (CompilerG.newWithState SymbolTable.new []) rfl⟩

/-! ### Infrastructure for the if-expression layout claim

The compiler's `lastInstruction` window drives `removeLastPop`; the
invariant `WinInv` records what that window can claim about the buffer: a
`Pop` recorded as the last instruction either really is the final byte of
the buffer (and that byte is `OpPop`'s byte 1), or points at or beyond
the end of the buffer (a state reachable after two strips with no emit in
between, where `removeLastPop` truncates nothing). -/

/-- Window soundness invariant of a compiler state. -/
def WinInv (c : Compiler) : Prop :=
  (c.lastInstruction.opcode = .opPop →
    (c.lastInstruction.position + 1 = c.instructions.length
      ∧ c.instructions.getD c.lastInstruction.position 0 = 1)
    ∨ c.instructions.length ≤ c.lastInstruction.position)
  ∧ (c.previousInstruction.opcode = .opPop →
    (c.previousInstruction.position + 1 = c.lastInstruction.position
      ∧ c.instructions.getD c.previousInstruction.position 0 = 1)
    ∨ c.lastInstruction.position ≤ c.previousInstruction.position)

/-- What a successful `Compile` call preserves: the invariant, the old
buffer as a prefix, and a two-instruction window that either survives
from the entry state or points into the appended region. -/
def ExtendsOk (c c' : Compiler) : Prop :=
  WinInv c'
  ∧ (∃ t, c'.instructions = c.instructions ++ t)
  ∧ (c'.lastInstruction = c.lastInstruction
     ∨ c.instructions.length ≤ c'.lastInstruction.position)
  ∧ (c'.previousInstruction = c.previousInstruction
     ∨ c'.previousInstruction = c.lastInstruction
     ∨ c.instructions.length ≤ c'.previousInstruction.position)

theorem extendsOk_refl (c : Compiler) (h : WinInv c) : ExtendsOk c c :=
  ⟨h, ⟨[], by simp⟩, Or.inl rfl, Or.inl rfl⟩

theorem extendsOk_trans {c₁ c₂ c₃ : Compiler}
    (h12 : ExtendsOk c₁ c₂) (h23 : ExtendsOk c₂ c₃) : ExtendsOk c₁ c₃ := by
  obtain ⟨hi2, ⟨t1, ht1⟩, hl2, hp2⟩ := h12
  obtain ⟨hi3, ⟨t2, ht2⟩, hl3, hp3⟩ := h23
  have hlen12 : c₁.instructions.length ≤ c₂.instructions.length := by
    rw [ht1, List.length_append]; omega
  refine ⟨hi3, ⟨t1 ++ t2, by rw [ht2, ht1, List.append_assoc]⟩, ?_, ?_⟩
  · rcases hl3 with h | h
    · rw [h]; exact hl2
    · right; omega
  · rcases hp3 with h | h | h
    · rw [h]; exact hp2
    · rw [h]
      rcases hl2 with h2 | h2
      · right; left; exact h2
      · right; right; exact h2
    · right; right; omega

theorem getD_append_right_self (A t : List Nat) (k : Nat) (d : Nat) :
    (A ++ t).getD (A.length + k) d = t.getD k d := by
  simp [List.getD_eq_getElem?_getD, List.getElem?_append_right, Nat.add_sub_cancel_left]

theorem getD_append_lt (A t : List Nat) (n : Nat) (d : Nat) (h : n < A.length) :
    (A ++ t).getD n d = A.getD n d := by
  rw [List.getD_eq_getElem?_getD, List.getD_eq_getElem?_getD, List.getElem?_append,
    if_pos h]

theorem getD_take_lt (l : List Nat) (n m d : Nat) (h : n < m) :
    (l.take m).getD n d = l.getD n d := by
  rw [List.getD_eq_getElem?_getD, List.getD_eq_getElem?_getD, List.getElem?_take]
  rw [if_pos h]

/-- `getD` at the first appended position. -/
theorem getD_append_self (A : List Nat) (b : Nat) (t : List Nat) (d : Nat) :
    (A ++ b :: t).getD A.length d = b := by
  have := getD_append_right_self A (b :: t) 0 d
  simpa using this

/-- `emit` equations. -/
theorem emit_ins (c : Compiler) (op : Opcode) (args : List Nat) :
    (c.emit op args).1.instructions = c.instructions ++ make op args := rfl

theorem emit_last (c : Compiler) (op : Opcode) (args : List Nat) :
    (c.emit op args).1.lastInstruction = ⟨op, c.instructions.length⟩ := rfl

theorem emit_prev (c : Compiler) (op : Opcode) (args : List Nat) :
    (c.emit op args).1.previousInstruction = c.lastInstruction := rfl

theorem emit_pos (c : Compiler) (op : Opcode) (args : List Nat) :
    (c.emit op args).2 = c.instructions.length := rfl

/-- `emit` preserves the invariant and extends the buffer. -/
theorem emit_extendsOk (c : Compiler) (op : Opcode) (args : List Nat) (h : WinInv c) :
    ExtendsOk c (c.emit op args).1 := by
  obtain ⟨hlast, hprev⟩ := h
  refine ⟨⟨?_, ?_⟩, ⟨make op args, emit_ins c op args⟩,
    Or.inr (by rw [emit_last]), Or.inr (Or.inl (emit_prev c op args))⟩
  · intro hp
    rw [emit_last] at hp
    rw [emit_last, emit_ins]
    have hop : op = .opPop := hp
    subst hop
    have hmk : make .opPop args = [1] := by cases args <;> rfl
    rw [hmk]
    left
    constructor
    · rw [List.length_append]
      rfl
    · exact getD_append_self c.instructions 1 [] 0
  · intro hp
    rw [emit_prev] at hp
    rw [emit_prev, emit_last, emit_ins]
    rcases hlast hp with ⟨h1, h2⟩ | h1
    · left
      refine ⟨h1, ?_⟩
      rw [getD_append_lt _ _ _ _ (by omega)]
      exact h2
    · right
      exact h1

/-- `removeLastPop` (called under `lastInstructionIsPop`) preserves the
invariant. -/
theorem removeLastPop_inv (c : Compiler) (h : WinInv c)
    (hp : c.lastInstruction.opcode = .opPop) : WinInv c.removeLastPop := by
  obtain ⟨hlast, hprev⟩ := h
  constructor
  · intro hp2
    show (c.previousInstruction.position + 1
          = (c.instructions.take c.lastInstruction.position).length
        ∧ (c.instructions.take c.lastInstruction.position).getD
            c.previousInstruction.position 0 = 1)
      ∨ (c.instructions.take c.lastInstruction.position).length
          ≤ c.previousInstruction.position
    rw [List.length_take]
    rcases hprev hp2 with ⟨h1, h2⟩ | h1
    · rcases hlast hp with ⟨h3, h4⟩ | h3
      · left
        refine ⟨by omega, ?_⟩
        rw [getD_take_lt _ _ _ _ (by omega)]
        exact h2
      · rcases Nat.lt_or_ge c.instructions.length (c.previousInstruction.position + 1)
            with h5 | h5
        · right; omega
        · left
          refine ⟨by omega, ?_⟩
          rw [getD_take_lt _ _ _ _ (by omega)]
          exact h2
    · right; omega
  · intro hp2
    show (c.previousInstruction.position + 1 = c.previousInstruction.position
        ∧ _)
      ∨ c.previousInstruction.position ≤ c.previousInstruction.position
    right; exact le_refl _

/-- Writing the same number of bytes over a middle segment. -/
theorem writeAt_patch (pre mid post new : List Nat) (hlen : mid.length = new.length) :
    writeAt (pre ++ mid ++ post) pre.length new = pre ++ new ++ post := by
  induction new generalizing pre mid with
  | nil =>
    cases mid with
    | nil => simp [writeAt]
    | cons m ms => exact absurd hlen (by simp)
  | cons b bs ih =>
    cases mid with
    | nil => exact absurd hlen (by simp)
    | cons m ms =>
      show writeAt ((pre ++ m :: ms ++ post).set pre.length b) (pre.length + 1) bs = _
      have hset : (pre ++ m :: ms ++ post).set pre.length b = pre ++ b :: ms ++ post := by
        have h2 : (pre ++ (m :: (ms ++ post))).set pre.length b
            = pre ++ (b :: (ms ++ post)) := by
          rw [List.set_append_right _ _ (le_refl _)]
          simp
        simpa using h2
      rw [hset]
      have h3 := ih (pre ++ [b]) ms (by simpa using hlen)
      have e1 : pre ++ [b] ++ ms ++ post = pre ++ b :: ms ++ post := by simp
      have e2 : pre ++ [b] ++ bs ++ post = pre ++ b :: bs ++ post := by simp
      have e3 : (pre ++ [b]).length = pre.length + 1 := by simp
      rw [e1, e2, e3] at h3
      exact h3

/-- `writeAt` preserves the length. -/
theorem writeAt_length (bs : List Nat) (l : List Nat) (p : Nat) :
    (writeAt l p bs).length = l.length := by
  induction bs generalizing l p with
  | nil => rfl
  | cons b bs ih =>
    show (writeAt (l.set p b) (p + 1) bs).length = _
    rw [ih, List.length_set]

/-- `addConstant` touches only the constants pool. -/
theorem addConstant_extendsOk (c : Compiler) (obj : Object) (h : WinInv c) :
    ExtendsOk c (c.addConstant obj).1 :=
  ⟨h, ⟨[], by simp [Compiler.addConstant]⟩, Or.inl rfl, Or.inl rfl⟩

/-- Inversion of a successful `Except` bind. -/
theorem except_bind_ok {ε α β : Type} (m : Except ε α) (f : α → Except ε β) (b : β)
    (h : Bind.bind m f = Except.ok b) : ∃ a, m = .ok a ∧ f a = .ok b := by
  cases m with
  | error e => exact absurd h (by simp [Bind.bind, Except.bind])
  | ok a => exact ⟨a, rfl, h⟩

theorem make_jnt_bytes (x : Nat) :
    make .opJumpNotTruthy [x] = 13 :: putUint16 x := rfl

theorem make_jump_bytes (x : Nat) :
    make .opJump [x] = 14 :: putUint16 x := rfl

theorem make_jnt_length (x : Nat) : (make .opJumpNotTruthy [x]).length = 3 := rfl

theorem make_jump_length (x : Nat) : (make .opJump [x]).length = 3 := rfl

theorem make_null_bytes : make .opNull [] = [15] := rfl

/-- Bytes beyond an equal-length patched middle segment agree. -/
theorem getD_patch_high (A M1 M2 T : List Nat) (h : M1.length = M2.length)
    (p d : Nat) (hp : A.length + M1.length ≤ p) :
    (A ++ M2 ++ T).getD p d = (A ++ M1 ++ T).getD p d := by
  have h1 : (A ++ M1 ++ T).getD p d = T.getD (p - (A.length + M1.length)) d := by
    have := getD_append_right_self (A ++ M1) T (p - (A.length + M1.length)) d
    rw [List.length_append] at this
    rw [List.append_assoc] at this ⊢
    rw [show A.length + M1.length + (p - (A.length + M1.length)) = p from by omega] at this
    exact this
  have h2 : (A ++ M2 ++ T).getD p d = T.getD (p - (A.length + M2.length)) d := by
    have := getD_append_right_self (A ++ M2) T (p - (A.length + M2.length)) d
    rw [List.length_append] at this
    rw [List.append_assoc] at this ⊢
    rw [show A.length + M2.length + (p - (A.length + M2.length)) = p from by omega] at this
    exact this
  rw [h1, h2, h]

/-- Behaviour of the trailing-Pop strip applied after compiling a branch:
`base` is the state at the branch's start (its recorded last instruction
is not a Pop) and `c` the state after compiling the branch body. -/
theorem strip_cases (base c : Compiler) (t : List Nat)
    (hext : c.instructions = base.instructions ++ t)
    (hInv : WinInv c)
    (hlast : c.lastInstruction = base.lastInstruction
      ∨ base.instructions.length ≤ c.lastInstruction.position)
    (hbase : base.lastInstruction.opcode ≠ .opPop) :
    ∃ seg, (if c.lastInstructionIsPop then c.removeLastPop else c).instructions
        = base.instructions ++ seg
      ∧ ((¬ c.lastInstructionIsPop = true ∧ seg = t)
        ∨ (c.lastInstructionIsPop = true ∧ t.getLast? = some 1 ∧ seg = t.dropLast)
        ∨ (c.lastInstructionIsPop = true
            ∧ c.instructions.length ≤ c.lastInstruction.position ∧ seg = t))
      ∧ WinInv (if c.lastInstructionIsPop then c.removeLastPop else c) := by
  by_cases hp : c.lastInstructionIsPop
  · have hpop : c.lastInstruction.opcode = .opPop := by
      simpa [Compiler.lastInstructionIsPop] using hp
    have hge : base.instructions.length ≤ c.lastInstruction.position := by
      rcases hlast with h | h
      · exact absurd (h ▸ hpop) hbase
      · exact h
    rcases hInv.1 hpop with ⟨h1, h2⟩ | h1
    · -- genuine strip: the Pop byte really closes the buffer
      refine ⟨t.dropLast, ?_, Or.inr (Or.inl ⟨hp, ?_, rfl⟩),
        by rw [if_pos hp]; exact removeLastPop_inv c hInv hpop⟩
      · rw [if_pos hp]
        show c.instructions.take c.lastInstruction.position = _
        have hlen : t.length = c.instructions.length - base.instructions.length := by
          rw [hext, List.length_append]; omega
        rw [hext, List.take_append_eq_append_take,
          List.take_of_length_le (by omega),
          List.dropLast_eq_take,
          show c.lastInstruction.position - base.instructions.length = t.length - 1
            from by omega]
      · have htne : t ≠ [] := by
          intro hnil
          rw [hnil] at hext
          simp at hext
          have : c.instructions.length = base.instructions.length := by rw [hext]
          omega
        rw [List.getLast?_eq_get?]
        have hlen : c.instructions.length = base.instructions.length + t.length := by
          rw [hext, List.length_append]
        have hpos : c.lastInstruction.position
            = base.instructions.length + (t.length - 1) := by omega
        rw [hext, hpos] at h2
        rw [getD_append_right_self] at h2
        have htlt : t.length - 1 < t.length := by
          cases t with
          | nil => exact absurd rfl htne
          | cons x xs => simp
        rw [List.get?_eq_get htlt]
        rw [List.getD_eq_get?, List.get?_eq_get htlt] at h2
        simp only [Option.getD_some] at h2
        rw [h2]
    · -- phantom strip: the recorded Pop lies at/beyond the end; nothing is removed
      refine ⟨t, ?_, Or.inr (Or.inr ⟨hp, h1, rfl⟩),
        by rw [if_pos hp]; exact removeLastPop_inv c hInv hpop⟩
      rw [if_pos hp]
      show c.instructions.take c.lastInstruction.position = _
      rw [List.take_of_length_le h1, hext]
  · exact ⟨t, by rw [if_neg hp]; exact hext, Or.inl ⟨hp, rfl⟩,
      by rw [if_neg hp]; exact hInv⟩

theorem changeOperand_last (c : Compiler) (pos op' : Nat) :
    (c.changeOperand pos op').lastInstruction = c.lastInstruction := rfl

theorem changeOperand_prev (c : Compiler) (pos op' : Nat) :
    (c.changeOperand pos op').previousInstruction = c.previousInstruction := rfl

theorem changeOperand_ins (c : Compiler) (pos op' : Nat) :
    (c.changeOperand pos op').instructions
      = writeAt c.instructions pos (makeByte (c.instructions.getD pos 0) [op']) := rfl

/-- Byte inside the middle segment. -/
theorem getD_mid (A M T : List Nat) (k d : Nat) (hk : k < M.length) :
    (A ++ M ++ T).getD (A.length + k) d = M.getD k d := by
  rw [List.append_assoc, getD_append_right_self, getD_append_lt _ _ _ _ hk]

/-- The window invariant survives an in-place, length-preserving patch of
a middle segment none of whose original bytes is `OpPop`'s byte 1. -/
theorem winInv_patch (c c' : Compiler) (A M1 M2 T : List Nat)
    (h1 : c.instructions = A ++ M1 ++ T) (h2 : c'.instructions = A ++ M2 ++ T)
    (hlen : M1.length = M2.length)
    (hlast : c'.lastInstruction = c.lastInstruction)
    (hprev : c'.previousInstruction = c.previousInstruction)
    (hM1 : ∀ k, k < M1.length → M1.getD k 0 ≠ 1)
    (hInv : WinInv c) : WinInv c' := by
  have hlength : c'.instructions.length = c.instructions.length := by
    rw [h1, h2]
    simp only [List.length_append]
    omega
  have hbyte : ∀ p, c.instructions.getD p 0 = 1 → c'.instructions.getD p 0 = 1 := by
    intro p hb
    rcases Nat.lt_or_ge p A.length with hp | hp
    · rw [h2, getD_append_lt _ _ _ _ (by rw [List.length_append]; omega),
        getD_append_lt _ _ _ _ hp]
      rw [h1, getD_append_lt _ _ _ _ (by rw [List.length_append]; omega),
        getD_append_lt _ _ _ _ hp] at hb
      exact hb
    · rcases Nat.lt_or_ge p (A.length + M1.length) with hq | hq
      · exfalso
        have hk := getD_mid A M1 T (p - A.length) 0 (by omega)
        rw [show A.length + (p - A.length) = p from by omega] at hk
        rw [h1] at hb
        rw [hk] at hb
        exact hM1 (p - A.length) (by omega) hb
      · rw [h2, getD_patch_high A M1 M2 T hlen p 0 hq, ← h1]
        exact hb
  obtain ⟨hcl, hcp⟩ := hInv
  constructor
  · intro hp
    rw [hlast] at hp ⊢
    rcases hcl hp with ⟨q1, q2⟩ | q1
    · left
      exact ⟨by omega, hbyte _ q2⟩
    · right; omega
  · intro hp
    rw [hprev] at hp ⊢
    rw [hlast]
    rcases hcp hp with ⟨q1, q2⟩ | q1
    · left
      exact ⟨q1, hbyte _ q2⟩
    · right; exact q1

/-- The trailing-Pop strip step of the if-expression case. -/
def stripPop (c : Compiler) : Compiler :=
  if c.lastInstructionIsPop then c.removeLastPop else c

/-- State after condition (`c1`), `JumpNotTruthy 9999`, consequence
(`c2`), strip, `Jump 9999`, and the back-patch of the `JumpNotTruthy`
to the offset after the `Jump` — the state in which the alternative (if
any) is compiled. -/
def ifC4 (c1 c2 : Compiler) : Compiler :=
  ((stripPop c2).emit .opJump [9999]).1.changeOperand c1.instructions.length
    ((stripPop c2).emit .opJump [9999]).1.instructions.length

/-- Final state of `if` without `else`: emit `Null`, patch the `Jump`. -/
def ifResultNone (c1 c2 : Compiler) : Compiler :=
  (((ifC4 c1 c2).emit .opNull []).1).changeOperand (stripPop c2).instructions.length
    ((((ifC4 c1 c2).emit .opNull []).1)).instructions.length

/-- Final state of `if` with `else` (`c5` = state after compiling the
alternative from `ifC4`): strip, patch the `Jump`. -/
def ifResultSome (c2 c5 : Compiler) : Compiler :=
  (stripPop c5).changeOperand (stripPop c2).instructions.length
    (stripPop c5).instructions.length

/-- How a branch's raw code `raw` relates to its stripped form `seg`:
either no trailing `Pop` was recorded, or the recorded `Pop` really ends
the branch (its byte 1 is dropped), or the record is stale (nothing is
dropped). -/
def StripInfo (c : Compiler) (raw seg : List Nat) : Prop :=
  (¬ c.lastInstructionIsPop = true ∧ seg = raw)
  ∨ (c.lastInstructionIsPop = true ∧ raw.getLast? = some 1 ∧ seg = raw.dropLast)
  ∨ (c.lastInstructionIsPop = true ∧ c.instructions.length ≤ c.lastInstruction.position
      ∧ seg = raw)

theorem stripPop_prev (c : Compiler) : (stripPop c).previousInstruction
    = c.previousInstruction := by
  rw [stripPop]
  by_cases h : c.lastInstructionIsPop
  · rw [if_pos h]; rfl
  · rw [if_neg h]

theorem stripPop_last (c : Compiler) : (stripPop c).lastInstruction = c.lastInstruction
    ∨ (stripPop c).lastInstruction = c.previousInstruction := by
  rw [stripPop]
  by_cases h : c.lastInstructionIsPop
  · rw [if_pos h]; right; rfl
  · rw [if_neg h]; left; rfl

/-- One-step unfolding of the if-expression case of `Compile` without an
alternative, with the intermediate states named by the helper functions. -/
theorem compile_if_none_unfold (cond cons : Node) (c0 : Compiler) :
    compile (.ifExpression cond cons none) c0 =
      Bind.bind (compile cond c0) (fun ca =>
        Bind.bind (compile cons ((ca.emit .opJumpNotTruthy [9999]).1)) (fun cb =>
          Except.ok (ifResultNone ca cb))) := rfl

/-- One-step unfolding of the if-expression case of `Compile` with an
alternative. -/
theorem compile_if_some_unfold (cond cons a : Node) (c0 : Compiler) :
    compile (.ifExpression cond cons (some a)) c0 =
      Bind.bind (compile cond c0) (fun ca =>
        Bind.bind (compile cons ((ca.emit .opJumpNotTruthy [9999]).1)) (fun cb =>
          Bind.bind (compile a (ifC4 ca cb))
            (fun cc => Except.ok (ifResultSome cb cc)))) := rfl

/-- Unconditional inversion of the if-expression case of `Compile`. -/
theorem if_inversion (cond cons : Node) (alt : Option Node) (c0 cF : Compiler)
    (h : compile (.ifExpression cond cons alt) c0 = .ok cF) :
    ∃ c1 c2, compile cond c0 = .ok c1
      ∧ compile cons ((c1.emit .opJumpNotTruthy [9999]).1) = .ok c2
      ∧ (alt = none → cF = ifResultNone c1 c2)
      ∧ (∀ a, alt = some a →
          ∃ c5, compile a (ifC4 c1 c2) = .ok c5 ∧ cF = ifResultSome c2 c5) := by
  cases alt with
  | none =>
    rw [compile_if_none_unfold] at h
    obtain ⟨c1, hc1, h2⟩ := except_bind_ok _ _ _ h
    obtain ⟨c2, hc2, h3⟩ := except_bind_ok _ _ _ h2
    exact ⟨c1, c2, hc1, hc2, fun _ => (Except.ok.inj h3).symm,
      fun a ha => Option.noConfusion ha⟩
  | some a =>
    rw [compile_if_some_unfold] at h
    obtain ⟨c1, hc1, h2⟩ := except_bind_ok _ _ _ h
    obtain ⟨c2, hc2, h3⟩ := except_bind_ok _ _ _ h2
    obtain ⟨c5, hc5, h4⟩ := except_bind_ok _ _ _ h3
    refine ⟨c1, c2, hc1, hc2, fun hcon => Option.noConfusion hcon, ?_⟩
    rintro b hb
    injection hb with hb
    subst hb
    exact ⟨c5, hc5, (Except.ok.inj h4).symm⟩

/-- Layout and invariant of the state `ifC4` in which the alternative is
compiled: condition code, back-patched `JumpNotTruthy` (targeting the
offset just past the `Jump`), stripped consequence, placeholder
`Jump 9999`. -/
theorem ifC4_layout (c1 c2 : Compiler)
    (hExt2 : ExtendsOk (c1.emit .opJumpNotTruthy [9999]).1 c2) :
    ∃ rawCons consSeg,
      c2.instructions = (c1.emit .opJumpNotTruthy [9999]).1.instructions ++ rawCons
      ∧ StripInfo c2 rawCons consSeg
      ∧ (stripPop c2).instructions
          = c1.instructions ++ make .opJumpNotTruthy [9999] ++ consSeg
      ∧ (ifC4 c1 c2).instructions
          = c1.instructions
            ++ make .opJumpNotTruthy [c1.instructions.length + 3 + consSeg.length + 3]
            ++ consSeg ++ make .opJump [9999]
      ∧ WinInv (ifC4 c1 c2)
      ∧ (ifC4 c1 c2).lastInstruction
          = ⟨.opJump, c1.instructions.length + 3 + consSeg.length⟩
      ∧ (ifC4 c1 c2).previousInstruction = (stripPop c2).lastInstruction := by
  obtain ⟨Inv2, ⟨t2, ht2⟩, hl2, hp2⟩ := hExt2
  have hbase : ((c1.emit .opJumpNotTruthy [9999]).1).lastInstruction.opcode ≠ .opPop :=
    fun hcon => Opcode.noConfusion hcon
  obtain ⟨consSeg, hseg, hD, Inv2s⟩ :=
    strip_cases ((c1.emit .opJumpNotTruthy [9999]).1) c2 t2 ht2 Inv2 hl2 hbase
  have hsegS : (stripPop c2).instructions
      = c1.instructions ++ make .opJumpNotTruthy [9999] ++ consSeg := by
    have h0 : (stripPop c2).instructions
        = (c1.emit .opJumpNotTruthy [9999]).1.instructions ++ consSeg := hseg
    rw [emit_ins] at h0
    exact h0
  have Inv2s' : WinInv (stripPop c2) := Inv2s
  have hlenS : (stripPop c2).instructions.length
      = c1.instructions.length + 3 + consSeg.length := by
    rw [hsegS]
    simp only [List.length_append, make_jnt_length]
  have hc3ins : (((stripPop c2).emit .opJump [9999]).1).instructions
      = c1.instructions ++ make .opJumpNotTruthy [9999]
        ++ (consSeg ++ make .opJump [9999]) := by
    rw [emit_ins, hsegS]
    simp [List.append_assoc]
  have hbyte : ((((stripPop c2).emit .opJump [9999]).1).instructions).getD
      c1.instructions.length 0 = 13 := by
    rw [hc3ins, make_jnt_bytes, List.append_assoc, List.cons_append]
    exact getD_append_self _ _ _ _
  have hc3len : (((stripPop c2).emit .opJump [9999]).1).instructions.length
      = c1.instructions.length + 3 + consSeg.length + 3 := by
    rw [emit_ins, List.length_append, hlenS, make_jump_length]
  have hc4ins : (ifC4 c1 c2).instructions
      = c1.instructions
        ++ make .opJumpNotTruthy
          [(((stripPop c2).emit .opJump [9999]).1).instructions.length]
        ++ (consSeg ++ make .opJump [9999]) := by
    show (((stripPop c2).emit .opJump [9999]).1.changeOperand c1.instructions.length
        (((stripPop c2).emit .opJump [9999]).1.instructions.length)).instructions = _
    rw [changeOperand_ins, hbyte]
    rw [show makeByte 13 [(((stripPop c2).emit .opJump [9999]).1.instructions.length)]
      = make .opJumpNotTruthy
          [(((stripPop c2).emit .opJump [9999]).1.instructions.length)] from rfl]
    rw [hc3ins]
    exact writeAt_patch c1.instructions (make .opJumpNotTruthy [9999])
      (consSeg ++ make .opJump [9999]) _ (by rw [make_jnt_length, make_jnt_length])
  refine ⟨t2, consSeg, ht2, hD, hsegS, ?_, ?_, ?_, ?_⟩
  · rw [hc4ins, hc3len]
    simp [List.append_assoc]
  · exact winInv_patch (((stripPop c2).emit .opJump [9999]).1) (ifC4 c1 c2)
      c1.instructions (make .opJumpNotTruthy [9999])
      (make .opJumpNotTruthy
        [(((stripPop c2).emit .opJump [9999]).1).instructions.length])
      (consSeg ++ make .opJump [9999])
      hc3ins hc4ins (by rw [make_jnt_length, make_jnt_length])
      rfl rfl (by decide)
      (emit_extendsOk (stripPop c2) .opJump [9999] Inv2s').1
  · show (((stripPop c2).emit .opJump [9999]).1.changeOperand _ _).lastInstruction = _
    rw [changeOperand_last, emit_last, hlenS]
  · show (((stripPop c2).emit .opJump [9999]).1.changeOperand _ _).previousInstruction = _
    rw [changeOperand_prev, emit_prev]

/-- Full layout of an if-expression without alternative: condition code,
back-patched `JumpNotTruthy`, stripped consequence, `Jump` targeting the
end of the buffer, and `Null` in place of the alternative. -/
theorem if_none_final (c1 c2 : Compiler)
    (hExt2 : ExtendsOk (c1.emit .opJumpNotTruthy [9999]).1 c2) :
    ∃ rawCons consSeg,
      c2.instructions = (c1.emit .opJumpNotTruthy [9999]).1.instructions ++ rawCons
      ∧ StripInfo c2 rawCons consSeg
      ∧ (ifResultNone c1 c2).instructions
          = c1.instructions
            ++ make .opJumpNotTruthy [c1.instructions.length + 3 + consSeg.length + 3]
            ++ consSeg
            ++ make .opJump [(ifResultNone c1 c2).instructions.length]
            ++ make .opNull []
      ∧ ExtendsOk c1 (ifResultNone c1 c2) := by
  obtain ⟨raw, cs, hraw, hD, hsegS, hc4ins, hInv4, hlast4, hprev4⟩ := ifC4_layout c1 c2 hExt2
  refine ⟨raw, cs, hraw, hD, ?_⟩
  have hsegSlen : (stripPop c2).instructions.length
      = c1.instructions.length + 3 + cs.length := by
    rw [hsegS]
    simp only [List.length_append, make_jnt_length]
  have hc4len : (ifC4 c1 c2).instructions.length
      = c1.instructions.length + 3 + cs.length + 3 := by
    rw [hc4ins]
    simp only [List.length_append, make_jnt_length, make_jump_length]
  have hNins : (((ifC4 c1 c2).emit .opNull []).1).instructions
      = (c1.instructions
          ++ make .opJumpNotTruthy [c1.instructions.length + 3 + cs.length + 3] ++ cs)
        ++ make .opJump [9999] ++ [15] := by
    rw [emit_ins, make_null_bytes, hc4ins]
  have hNlen : (((ifC4 c1 c2).emit .opNull []).1).instructions.length
      = c1.instructions.length + 3 + cs.length + 4 := by
    rw [emit_ins, List.length_append, hc4len, make_null_bytes]
    rfl
  have hAlen : (c1.instructions
      ++ make .opJumpNotTruthy [c1.instructions.length + 3 + cs.length + 3]
      ++ cs).length = c1.instructions.length + 3 + cs.length := by
    simp only [List.length_append, make_jnt_length]
  have hbyteN : ((((ifC4 c1 c2).emit .opNull []).1).instructions).getD
      (c1.instructions.length + 3 + cs.length) 0 = 14 := by
    have hb := getD_append_self
      (c1.instructions
        ++ make .opJumpNotTruthy [c1.instructions.length + 3 + cs.length + 3] ++ cs)
      14 (putUint16 9999 ++ [15]) 0
    rw [hAlen] at hb
    rw [hNins, make_jump_bytes, List.append_assoc, List.cons_append]
    exact hb
  have hresult : (ifResultNone c1 c2).instructions
      = (c1.instructions
          ++ make .opJumpNotTruthy [c1.instructions.length + 3 + cs.length + 3] ++ cs)
        ++ make .opJump [c1.instructions.length + 3 + cs.length + 4] ++ [15] := by
    show ((((ifC4 c1 c2).emit .opNull []).1).changeOperand
        (stripPop c2).instructions.length
        ((((ifC4 c1 c2).emit .opNull []).1)).instructions.length).instructions = _
    rw [changeOperand_ins, hsegSlen, hNlen, hbyteN]
    rw [show makeByte 14 [c1.instructions.length + 3 + cs.length + 4]
      = make .opJump [c1.instructions.length + 3 + cs.length + 4] from rfl]
    have hp := writeAt_patch
      (c1.instructions
        ++ make .opJumpNotTruthy [c1.instructions.length + 3 + cs.length + 3] ++ cs)
      (make .opJump [9999]) [15]
      (make .opJump [c1.instructions.length + 3 + cs.length + 4])
      (by rw [make_jump_length, make_jump_length])
    rw [hAlen] at hp
    rw [hNins]
    exact hp
  have hflen : (ifResultNone c1 c2).instructions.length
      = c1.instructions.length + 3 + cs.length + 4 := by
    show ((((ifC4 c1 c2).emit .opNull []).1).changeOperand
        (stripPop c2).instructions.length
        ((((ifC4 c1 c2).emit .opNull []).1)).instructions.length).instructions.length = _
    rw [changeOperand_ins, writeAt_length, hNlen]
  constructor
  · rw [hflen, hresult, ← make_null_bytes]
  · refine ⟨⟨?_, ?_⟩, ⟨?_, ?_⟩, ?_, ?_⟩
    · intro hPop
      exact Opcode.noConfusion hPop
    · intro hPop
      have hPop' : (ifC4 c1 c2).lastInstruction.opcode = .opPop := hPop
      rw [hlast4] at hPop'
      exact Opcode.noConfusion hPop'
    · exact make .opJumpNotTruthy [c1.instructions.length + 3 + cs.length + 3]
        ++ cs ++ make .opJump [c1.instructions.length + 3 + cs.length + 4] ++ [15]
    · rw [hresult]
      simp [List.append_assoc]
    · right
      show c1.instructions.length ≤ (ifC4 c1 c2).instructions.length
      rw [hc4len]
      omega
    · right; right
      show c1.instructions.length ≤ ((ifC4 c1 c2).lastInstruction).position
      rw [hlast4]
      show c1.instructions.length ≤ c1.instructions.length + 3 + cs.length
      omega

/-- The last-instruction window of the stripped consequence state either
equals `c1`'s window entry or points at or past the end of `c1`'s code. -/
theorem stripPop_c2_last_bound (c1 c2 : Compiler)
    (hExt2 : ExtendsOk (c1.emit .opJumpNotTruthy [9999]).1 c2) :
    (stripPop c2).lastInstruction = c1.lastInstruction
      ∨ c1.instructions.length ≤ (stripPop c2).lastInstruction.position := by
  obtain ⟨Inv2, ⟨t2, ht2⟩, hl2, hp2⟩ := hExt2
  rcases stripPop_last c2 with h | h
  · rw [h]
    rcases hl2 with h2 | h2
    · rw [h2, emit_last]
      right
      show c1.instructions.length ≤ c1.instructions.length
      exact Nat.le_refl _
    · right
      have hJlen : (c1.emit .opJumpNotTruthy [9999]).1.instructions.length
          = c1.instructions.length + 3 := by
        rw [emit_ins, List.length_append, make_jnt_length]
      omega
  · rw [h]
    rcases hp2 with h2 | h2 | h2
    · rw [h2, emit_prev]
      left
      rfl
    · rw [h2, emit_last]
      right
      show c1.instructions.length ≤ c1.instructions.length
      exact Nat.le_refl _
    · right
      have hJlen : (c1.emit .opJumpNotTruthy [9999]).1.instructions.length
          = c1.instructions.length + 3 := by
        rw [emit_ins, List.length_append, make_jnt_length]
      omega

/-- Full layout of an if-expression with an alternative: condition code,
back-patched `JumpNotTruthy`, stripped consequence, `Jump` targeting the
end of the buffer, and the stripped alternative. -/
theorem if_some_final (c1 c2 c5 : Compiler)
    (hExt2 : ExtendsOk (c1.emit .opJumpNotTruthy [9999]).1 c2)
    (hExt5 : ExtendsOk (ifC4 c1 c2) c5) :
    ∃ rawCons consSeg rawAlt altSeg,
      c2.instructions = (c1.emit .opJumpNotTruthy [9999]).1.instructions ++ rawCons
      ∧ StripInfo c2 rawCons consSeg
      ∧ c5.instructions = (ifC4 c1 c2).instructions ++ rawAlt
      ∧ StripInfo c5 rawAlt altSeg
      ∧ (ifResultSome c2 c5).instructions
          = c1.instructions
            ++ make .opJumpNotTruthy [c1.instructions.length + 3 + consSeg.length + 3]
            ++ consSeg
            ++ make .opJump [(ifResultSome c2 c5).instructions.length]
            ++ altSeg
      ∧ ExtendsOk c1 (ifResultSome c2 c5) := by
  obtain ⟨raw, cs, hraw, hD, hsegS, hc4ins, hInv4, hlast4, hprev4⟩ := ifC4_layout c1 c2 hExt2
  obtain ⟨Inv5, ⟨t5, ht5⟩, hl5, hp5⟩ := hExt5
  have hbase4 : (ifC4 c1 c2).lastInstruction.opcode ≠ .opPop := by
    rw [hlast4]
    exact fun hcon => Opcode.noConfusion hcon
  obtain ⟨altSeg, hseg5, hD5, Inv5s⟩ :=
    strip_cases (ifC4 c1 c2) c5 t5 ht5 Inv5 hl5 hbase4
  have Inv5s' : WinInv (stripPop c5) := Inv5s
  have hs5 : (stripPop c5).instructions = (ifC4 c1 c2).instructions ++ altSeg := hseg5
  refine ⟨raw, cs, t5, altSeg, hraw, hD, ht5, hD5, ?_⟩
  have hsegSlen : (stripPop c2).instructions.length
      = c1.instructions.length + 3 + cs.length := by
    rw [hsegS]
    simp only [List.length_append, make_jnt_length]
  have hc4len : (ifC4 c1 c2).instructions.length
      = c1.instructions.length + 3 + cs.length + 3 := by
    rw [hc4ins]
    simp only [List.length_append, make_jnt_length, make_jump_length]
  have h5full : (stripPop c5).instructions
      = (c1.instructions
          ++ make .opJumpNotTruthy [c1.instructions.length + 3 + cs.length + 3] ++ cs)
        ++ make .opJump [9999] ++ altSeg := by
    rw [hs5, hc4ins]
  have hAlen : (c1.instructions
      ++ make .opJumpNotTruthy [c1.instructions.length + 3 + cs.length + 3]
      ++ cs).length = c1.instructions.length + 3 + cs.length := by
    simp only [List.length_append, make_jnt_length]
  have h5len : (stripPop c5).instructions.length
      = c1.instructions.length + 3 + cs.length + 3 + altSeg.length := by
    rw [hs5, List.length_append, hc4len]
  have hbyte5 : ((stripPop c5).instructions).getD
      (c1.instructions.length + 3 + cs.length) 0 = 14 := by
    have hb := getD_append_self
      (c1.instructions
        ++ make .opJumpNotTruthy [c1.instructions.length + 3 + cs.length + 3] ++ cs)
      14 (putUint16 9999 ++ altSeg) 0
    rw [hAlen] at hb
    rw [h5full, make_jump_bytes, List.append_assoc, List.cons_append]
    exact hb
  have hresult : (ifResultSome c2 c5).instructions
      = (c1.instructions
          ++ make .opJumpNotTruthy [c1.instructions.length + 3 + cs.length + 3] ++ cs)
        ++ make .opJump [c1.instructions.length + 3 + cs.length + 3 + altSeg.length]
        ++ altSeg := by
    show ((stripPop c5).changeOperand (stripPop c2).instructions.length
        (stripPop c5).instructions.length).instructions = _
    rw [changeOperand_ins, hsegSlen, h5len, hbyte5]
    rw [show makeByte 14 [c1.instructions.length + 3 + cs.length + 3 + altSeg.length]
      = make .opJump [c1.instructions.length + 3 + cs.length + 3 + altSeg.length]
      from rfl]
    have hp := writeAt_patch
      (c1.instructions
        ++ make .opJumpNotTruthy [c1.instructions.length + 3 + cs.length + 3] ++ cs)
      (make .opJump [9999]) altSeg
      (make .opJump [c1.instructions.length + 3 + cs.length + 3 + altSeg.length])
      (by rw [make_jump_length, make_jump_length])
    rw [hAlen] at hp
    rw [h5full]
    exact hp
  have hflen : (ifResultSome c2 c5).instructions.length
      = c1.instructions.length + 3 + cs.length + 3 + altSeg.length := by
    show ((stripPop c5).changeOperand (stripPop c2).instructions.length
        (stripPop c5).instructions.length).instructions.length = _
    rw [changeOperand_ins, writeAt_length, h5len]
  have hInvF : WinInv (ifResultSome c2 c5) := by
    refine winInv_patch (stripPop c5) (ifResultSome c2 c5)
      (c1.instructions
        ++ make .opJumpNotTruthy [c1.instructions.length + 3 + cs.length + 3] ++ cs)
      (make .opJump [9999])
      (make .opJump [c1.instructions.length + 3 + cs.length + 3 + altSeg.length])
      altSeg h5full hresult
      (by rw [make_jump_length, make_jump_length]) rfl rfl (by decide) Inv5s'
  constructor
  · rw [hflen, hresult]
  · refine ⟨hInvF, ⟨?_, ?_⟩, ?_, ?_⟩
    · exact make .opJumpNotTruthy [c1.instructions.length + 3 + cs.length + 3]
        ++ cs ++ make .opJump [c1.instructions.length + 3 + cs.length + 3 + altSeg.length]
        ++ altSeg
    · rw [hresult]
      simp [List.append_assoc]
    · -- last instruction bound
      have hchg : (ifResultSome c2 c5).lastInstruction = (stripPop c5).lastInstruction :=
        rfl
      rw [hchg]
      rcases stripPop_last c5 with h | h
      · rw [h]
        rcases hl5 with h2 | h2
        · rw [h2, hlast4]
          right
          show c1.instructions.length ≤ c1.instructions.length + 3 + cs.length
          omega
        · right
          omega
      · rw [h]
        rcases hp5 with h2 | h2 | h2
        · rw [h2]
          have hpb := stripPop_c2_last_bound c1 c2 hExt2
          rw [hprev4]
          exact hpb
        · rw [h2, hlast4]
          right
          show c1.instructions.length ≤ c1.instructions.length + 3 + cs.length
          omega
        · right
          omega
    · -- previous instruction bound
      have hchg : (ifResultSome c2 c5).previousInstruction
          = c5.previousInstruction := by
        rw [show (ifResultSome c2 c5).previousInstruction
          = (stripPop c5).previousInstruction from rfl, stripPop_prev]
      rw [hchg]
      rcases hp5 with h2 | h2 | h2
      · rw [h2]
        have hpb := stripPop_c2_last_bound c1 c2 hExt2
        rw [← hprev4] at hpb
        rcases hpb with hpb | hpb
        · exact Or.inr (Or.inl hpb)
        · exact Or.inr (Or.inr hpb)
      · rw [h2, hlast4]
        right; right
        show c1.instructions.length ≤ c1.instructions.length + 3 + cs.length
        omega
      · right; right
        omega

/-- `compile` unfolded at an expression statement. -/
theorem compile_exprStmt_unfold (e : Node) (c : Compiler) :
    compile (.expressionStatement e) c
      = Bind.bind (compile e c) (fun c1 => Except.ok (c1.emit .opPop []).1) := rfl

/-- `compile` unfolded at an infix expression. -/
theorem compile_infix_unfold (op : String) (l r : Node) (c : Compiler) :
    compile (.infixExpression op l r) c
      = if op = "<" then
          Bind.bind (compile r c) (fun c1 =>
            Bind.bind (compile l c1) (fun c2 =>
              Except.ok (c2.emit .opGreaterThan []).1))
        else
          Bind.bind (compile l c) (fun c1 =>
            Bind.bind (compile r c1) (fun c2 =>
              if op = "+" then Except.ok (c2.emit .opAdd []).1
              else if op = "-" then Except.ok (c2.emit .opSub []).1
              else if op = "*" then Except.ok (c2.emit .opMul []).1
              else if op = "/" then Except.ok (c2.emit .opDiv []).1
              else if op = "==" then Except.ok (c2.emit .opEqual []).1
              else if op = "!=" then Except.ok (c2.emit .opNotEqual []).1
              else if op = ">" then Except.ok (c2.emit .opGreaterThan []).1
              else Except.error ("unknown operator " ++ op))) := rfl

/-- `compile` unfolded at a prefix expression. -/
theorem compile_prefix_unfold (op : String) (r : Node) (c : Compiler) :
    compile (.prefixExpression op r) c
      = Bind.bind (compile r c) (fun c1 =>
          if op = "!" then Except.ok (c1.emit .opBang []).1
          else if op = "-" then Except.ok (c1.emit .opMinus []).1
          else Except.error ("unknown operator: " ++ op)) := rfl

/-- `compile` unfolded at a statement sequence cons cell. -/
theorem compileList_cons_unfold (s : Node) (rest : NodeList) (c : Compiler) :
    compileList (.cons s rest) c
      = Bind.bind (compile s c) (fun c1 => compileList rest c1) := rfl

mutual
/-- Every successful `Compile` call only appends to the instruction
buffer, keeps the two-slot window invariant, and moves the window
forward. -/
theorem compile_extendsOk : ∀ (n : Node) (c c' : Compiler),
    WinInv c → compile n c = .ok c' → ExtendsOk c c'
  | .program stmts, c, c', hInv, h => compileList_extendsOk stmts c c' hInv h
  | .blockStatement stmts, c, c', hInv, h => compileList_extendsOk stmts c c' hInv h
  | .expressionStatement e, c, c', hInv, h => by
    rw [compile_exprStmt_unfold] at h
    obtain ⟨c1, hc1, h2⟩ := except_bind_ok _ _ _ h
    have hE := compile_extendsOk e c c1 hInv hc1
    exact (Except.ok.inj h2) ▸ extendsOk_trans hE (emit_extendsOk c1 .opPop [] hE.1)
  | .infixExpression op l r, c, c', hInv, h => by
    rw [compile_infix_unfold] at h
    by_cases hop : op = "<"
    · rw [if_pos hop] at h
      obtain ⟨c1, hc1, h2⟩ := except_bind_ok _ _ _ h
      obtain ⟨c2, hc2, h3⟩ := except_bind_ok _ _ _ h2
      have hE1 := compile_extendsOk r c c1 hInv hc1
      have hE2 := compile_extendsOk l c1 c2 hE1.1 hc2
      have hT := extendsOk_trans hE1 hE2
      exact (Except.ok.inj h3) ▸
        extendsOk_trans hT (emit_extendsOk c2 .opGreaterThan [] hT.1)
    · rw [if_neg hop] at h
      obtain ⟨c1, hc1, h2⟩ := except_bind_ok _ _ _ h
      obtain ⟨c2, hc2, h3⟩ := except_bind_ok _ _ _ h2
      have hE1 := compile_extendsOk l c c1 hInv hc1
      have hE2 := compile_extendsOk r c1 c2 hE1.1 hc2
      have hT := extendsOk_trans hE1 hE2
      repeat' split at h3
      all_goals first
        | exact Except.noConfusion h3
        | exact (Except.ok.inj h3) ▸ extendsOk_trans hT (emit_extendsOk c2 _ [] hT.1)
  | .integerLiteral v, c, c', hInv, h => by
    have h' : Except.ok ((c.addConstant (.integer v)).1.emit .opConstant
        [(c.addConstant (.integer v)).2]).1 = Except.ok c' := h
    have hA := addConstant_extendsOk c (.integer v) hInv
    exact (Except.ok.inj h') ▸
      extendsOk_trans hA (emit_extendsOk _ .opConstant _ hA.1)
  | .prefixExpression op r, c, c', hInv, h => by
    rw [compile_prefix_unfold] at h
    obtain ⟨c1, hc1, h2⟩ := except_bind_ok _ _ _ h
    have hE := compile_extendsOk r c c1 hInv hc1
    repeat' split at h2
    all_goals first
      | exact Except.noConfusion h2
      | exact (Except.ok.inj h2) ▸ extendsOk_trans hE (emit_extendsOk c1 _ [] hE.1)
  | .ifExpression cond cons none, c, c', hInv, h => by
    obtain ⟨c1, c2, hc1, hc2, hnone, _⟩ := if_inversion cond cons none c c' h
    have hE1 := compile_extendsOk cond c c1 hInv hc1
    have hEJ := emit_extendsOk c1 .opJumpNotTruthy [9999] hE1.1
    have hE2 := compile_extendsOk cons _ c2 hEJ.1 hc2
    have hExt2 : ExtendsOk (c1.emit .opJumpNotTruthy [9999]).1 c2 := hE2
    obtain ⟨raw, cs, _, _, _, hExtF⟩ := if_none_final c1 c2 hExt2
    rw [hnone rfl]
    exact extendsOk_trans hE1 hExtF
  | .ifExpression cond cons (some a), c, c', hInv, h => by
    obtain ⟨c1, c2, hc1, hc2, _, hsome⟩ := if_inversion cond cons (some a) c c' h
    obtain ⟨c5, hc5, hF⟩ := hsome a rfl
    have hE1 := compile_extendsOk cond c c1 hInv hc1
    have hEJ := emit_extendsOk c1 .opJumpNotTruthy [9999] hE1.1
    have hE2 := compile_extendsOk cons _ c2 hEJ.1 hc2
    have hExt2 : ExtendsOk (c1.emit .opJumpNotTruthy [9999]).1 c2 := hE2
    obtain ⟨raw4, cs4, _, _, _, _, hInv4, _, _⟩ := ifC4_layout c1 c2 hExt2
    have hE5 := compile_extendsOk a (ifC4 c1 c2) c5 hInv4 hc5
    obtain ⟨r1, s1, r2, s2, _, _, _, _, _, hExtF⟩ := if_some_final c1 c2 c5 hExt2 hE5
    rw [hF]
    exact extendsOk_trans hE1 hExtF
  | .booleanNode b, c, c', hInv, h => by
    cases b with
    | true =>
      have h' : Except.ok (c.emit .opTrue []).1 = Except.ok c' := h
      exact (Except.ok.inj h') ▸ emit_extendsOk c .opTrue [] hInv
    | false =>
      have h' : Except.ok (c.emit .opFalse []).1 = Except.ok c' := h
      exact (Except.ok.inj h') ▸ emit_extendsOk c .opFalse [] hInv
  | .letStatement _ _, c, c', hInv, h =>
    (Except.ok.inj h) ▸ extendsOk_refl c hInv
  | .identifier _, c, c', hInv, h =>
    (Except.ok.inj h) ▸ extendsOk_refl c hInv
  | .stringLiteral _, c, c', hInv, h =>
    (Except.ok.inj h) ▸ extendsOk_refl c hInv
  | .arrayLiteral _, c, c', hInv, h =>
    (Except.ok.inj h) ▸ extendsOk_refl c hInv
  | .hashLiteral _, c, c', hInv, h =>
    (Except.ok.inj h) ▸ extendsOk_refl c hInv
  | .indexExpression _ _, c, c', hInv, h =>
    (Except.ok.inj h) ▸ extendsOk_refl c hInv
  | .functionLiteral _ _, c, c', hInv, h =>
    (Except.ok.inj h) ▸ extendsOk_refl c hInv
  | .callExpression _ _, c, c', hInv, h =>
    (Except.ok.inj h) ▸ extendsOk_refl c hInv

/-- Every successful `compileList` call only appends to the instruction
buffer and keeps the window invariant. -/
theorem compileList_extendsOk : ∀ (l : NodeList) (c c' : Compiler),
    WinInv c → compileList l c = .ok c' → ExtendsOk c c'
  | .nil, c, c', hInv, h => (Except.ok.inj h) ▸ extendsOk_refl c hInv
  | .cons s rest, c, c', hInv, h => by
    rw [compileList_cons_unfold] at h
    obtain ⟨c1, hc1, h2⟩ := except_bind_ok _ _ _ h
    have hE1 := compile_extendsOk s c c1 hInv hc1
    exact extendsOk_trans hE1 (compileList_extendsOk rest c1 c' hE1.1 h2)
end

/-- C2: for every IfExpression node successfully compiled from a state
satisfying the window invariant, the compiler emits the condition, then a
`JumpNotTruthy` whose operand is back-patched to the offset just after the
consequence's `Jump` (condition length + 3 + stripped consequence length
+ 3); it removes a trailing `Pop` from the compiled consequence (and from
the alternative) exactly when the last-instruction window records one
(`StripInfo`); when there is no alternative it emits `Null` in its place;
and the `Jump` emitted after the consequence is back-patched to the offset
at the end of the alternative, which equals the length of the resulting
buffer. -/
theorem compile_if_spec (cond cons : Node) (alt : Option Node) (c0 cF : Compiler)
    (hInv : WinInv c0)
    (h : compile (.ifExpression cond cons alt) c0 = .ok cF) :
    ∃ c1 c2 rawCons consSeg tail,
      compile cond c0 = .ok c1
      ∧ compile cons ((c1.emit .opJumpNotTruthy [9999]).1) = .ok c2
      ∧ c2.instructions = c1.instructions ++ make .opJumpNotTruthy [9999] ++ rawCons
      ∧ StripInfo c2 rawCons consSeg
      ∧ cF.instructions
          = c1.instructions
            ++ make .opJumpNotTruthy [c1.instructions.length + 3 + consSeg.length + 3]
            ++ consSeg
            ++ make .opJump [cF.instructions.length]
            ++ tail
      ∧ ((alt = none ∧ tail = make .opNull [])
         ∨ (∃ a c5 rawAlt, alt = some a
             ∧ compile a (ifC4 c1 c2) = .ok c5
             ∧ c5.instructions = (ifC4 c1 c2).instructions ++ rawAlt
             ∧ StripInfo c5 rawAlt tail)) := by
  obtain ⟨c1, c2, hc1, hc2, hnone, hsome⟩ := if_inversion cond cons alt c0 cF h
  have hE1 := compile_extendsOk cond c0 c1 hInv hc1
  have hEJ := emit_extendsOk c1 .opJumpNotTruthy [9999] hE1.1
  have hE2 := compile_extendsOk cons _ c2 hEJ.1 hc2
  have hExt2 : ExtendsOk (c1.emit .opJumpNotTruthy [9999]).1 c2 := hE2
  cases alt with
  | none =>
    have hF := hnone rfl
    subst hF
    obtain ⟨raw, cs, hraw, hD, hlay, _⟩ := if_none_final c1 c2 hExt2
    refine ⟨c1, c2, raw, cs, make .opNull [], hc1, hc2, ?_, hD, hlay, Or.inl ⟨rfl, rfl⟩⟩
    rw [hraw, emit_ins, List.append_assoc]
  | some a =>
    obtain ⟨c5, hc5, hF⟩ := hsome a rfl
    subst hF
    obtain ⟨raw4, cs4, _, _, _, _, hInv4, _, _⟩ := ifC4_layout c1 c2 hExt2
    have hE5 := compile_extendsOk a (ifC4 c1 c2) c5 hInv4 hc5
    obtain ⟨r1, s1, r2, s2, hr1, hs1, hr2, hs2, hlay, _⟩ :=
      if_some_final c1 c2 c5 hExt2 hE5
    refine ⟨c1, c2, r1, s1, s2, hc1, hc2, ?_, hs1, hlay,
      Or.inr ⟨a, c5, r2, rfl, hc5, hr2, hs2⟩⟩
    rw [hr1, emit_ins, List.append_assoc]

/-- Witness: `if (true) { 5 }` from the fresh compiler state satisfies the
C2 layout. -/
theorem compile_if_spec_witness :
    WinInv Compiler.new
    ∧ ∃ cF, compile (.ifExpression (.booleanNode true)
        (.blockStatement (.cons (.expressionStatement (.integerLiteral 5)) .nil))
        none) Compiler.new = .ok cF
      ∧ ∃ c1 c2 rawCons consSeg tail,
          compile (.booleanNode true) Compiler.new = .ok c1
          ∧ compile (.blockStatement
              (.cons (.expressionStatement (.integerLiteral 5)) .nil))
              ((c1.emit .opJumpNotTruthy [9999]).1) = .ok c2
          ∧ c2.instructions
              = c1.instructions ++ make .opJumpNotTruthy [9999] ++ rawCons
          ∧ StripInfo c2 rawCons consSeg
          ∧ cF.instructions
              = c1.instructions
                ++ make .opJumpNotTruthy
                  [c1.instructions.length + 3 + consSeg.length + 3]
                ++ consSeg
                ++ make .opJump [cF.instructions.length]
                ++ tail
          ∧ ((none = (none : Option Node) ∧ tail = make .opNull [])
             ∨ (∃ a c5 rawAlt, (none : Option Node) = some a
                 ∧ compile a (ifC4 c1 c2) = .ok c5
                 ∧ c5.instructions = (ifC4 c1 c2).instructions ++ rawAlt
                 ∧ StripInfo c5 rawAlt tail)) :=
  ⟨⟨fun h => Opcode.noConfusion h, fun h => Opcode.noConfusion h⟩,
    ⟨_, rfl, compile_if_spec (.booleanNode true)
      (.blockStatement (.cons (.expressionStatement (.integerLiteral 5)) .nil))
      none Compiler.new _
      ⟨fun h => Opcode.noConfusion h, fun h => Opcode.noConfusion h⟩ rfl⟩⟩
